import Mathlib

/-!
Verification of the Beamer-presentation generator (`generate_presentation.py`).

The program is embedded shallowly: strings are `List Char`, Python string
operations (`strip`, `split('\n')`, `str.replace`, the specific `re.sub`
patterns used by the source) are modelled as executable Lean functions,
and the three core functions `markdown_to_latex`, `extract_title_info`
and the content-building loop of `generate_beamer_with_content` are
translated definition by definition.
-/

set_option maxRecDepth 100000

abbrev Str := List Char

/-- Coerce a Lean string literal to the `List Char` representation. -/
def lc (s : String) : Str := s.data

/-- Python's default whitespace set for `str.strip` and the regex class `\s`
(ASCII part): space, tab, newline, carriage return, vertical tab, form feed. -/
def isPySpace (c : Char) : Bool :=
  c = ' ' || c = '\t' || c = '\n' || c = '\r' || c = '\x0b' || c = '\x0c'

/-- Python `str.lstrip()` (no argument): drop leading whitespace. -/
def pyLstrip (s : Str) : Str := s.dropWhile isPySpace

/-- Python `str.rstrip()` (no argument): drop trailing whitespace. -/
def pyRstrip (s : Str) : Str := (s.reverse.dropWhile isPySpace).reverse

/-- Python `str.strip()` (no argument). -/
def pyStrip (s : Str) : Str := pyRstrip (pyLstrip s)

/-- Python `str.lstrip('## ')` and friends: drop leading characters that are
`'#'` or `' '` (the argument is a character set; all call sites of the source
use a set equal to those two characters). -/
def lstripHashSpace (s : Str) : Str := s.dropWhile (fun c => c = '#' || c = ' ')

/-- Python `text.split('\n')`: split on every newline, keeping empty pieces;
the result is always non-empty. -/
def splitNl : Str → List Str
  | [] => [[]]
  | c :: r =>
    if c = '\n' then [] :: splitNl r
    else
      match splitNl r with
      | [] => [[c]]
      | l :: ls => (c :: l) :: ls

/-- Python `'\n'.join(lines)`. -/
def joinNl : List Str → Str
  | [] => []
  | [l] => l
  | l :: ls => l ++ '\n' :: joinNl ls

/-- Worker for `pyReplace`: Python `str.replace` scanning left to right,
replacing non-overlapping occurrences. The `Nat` argument counts characters
of an already-matched occurrence that remain to be skipped. -/
def pyRepGo (pat repl : Str) : Nat → Str → Str
  | _, [] => []
  | k + 1, _ :: rest => pyRepGo pat repl k rest
  | 0, c :: rest =>
    if pat.isPrefixOf (c :: rest) then
      repl ++ pyRepGo pat repl (pat.length - 1) rest
    else
      c :: pyRepGo pat repl 0 rest

/-- Python `text.replace(pat, repl)` (for the non-empty patterns the source
uses; an empty pattern is returned unchanged, a case never exercised). -/
def pyReplace (pat repl s : Str) : Str :=
  if pat = [] then s else pyRepGo pat repl 0 s

/-- First index at which `tok` occurs, provided no `'\n'` occurs strictly
before it: this is how a lazy group `(.*?)` (whose `.` does not match a
newline) followed by the literal `tok` finds its end. -/
def findTokNoNl (tok : Str) : Str → Option Nat
  | [] => none
  | c :: rest =>
    if tok.isPrefixOf (c :: rest) then some 0
    else if c = '\n' then none
    else (findTokNoNl tok rest).map (· + 1)

/-- Worker for `subSpan` (skip counter as in `pyRepGo`). -/
def subSpanGo (oTok cTok pre post : Str) : Nat → Str → Str
  | _, [] => []
  | k + 1, _ :: rest => subSpanGo oTok cTok pre post k rest
  | 0, c :: rest =>
    if oTok.isPrefixOf (c :: rest) then
      match findTokNoNl cTok ((c :: rest).drop oTok.length) with
      | some i =>
        let after := (c :: rest).drop oTok.length
        pre ++ after.take i ++ post ++
          subSpanGo oTok cTok pre post (oTok.length + i + cTok.length - 1) rest
      | none => c :: subSpanGo oTok cTok pre post 0 rest
    else
      c :: subSpanGo oTok cTok pre post 0 rest

/-- `re.sub(oTok (.*?) cTok, pre \1 post, text)` for literal delimiter tokens,
as used for `**bold**`, `*italic*` and `` `code` `` in `markdown_to_latex`:
the lazy group cannot cross a newline, matches are found leftmost and
non-overlapping. -/
def subSpan (oTok cTok pre post s : Str) : Str := subSpanGo oTok cTok pre post 0 s

/-- For the link regex `\[(.*?)\]\((.*?)\)`: given the text after a `'['`,
find `(i, j)` such that group 1 is the first `i` characters, `"]("` follows,
group 2 is the next `j` characters and `")"` follows — with the lazy
backtracking of the Python engine (earliest `"]("` whose following text
closes with `")"` before a newline wins) and neither group crossing a
newline. -/
def findLinkIdx : Str → Option (Nat × Nat)
  | [] => none
  | c :: rest =>
    if c = '\n' then none
    else if (lc ("](")).isPrefixOf (c :: rest) then
      match findTokNoNl (lc (")")) ((c :: rest).drop 2) with
      | some j => some (0, j)
      | none => (findLinkIdx rest).map (fun p => (p.1 + 1, p.2))
    else (findLinkIdx rest).map (fun p => (p.1 + 1, p.2))

/-- Worker for `subLink`. -/
def subLinkGo : Nat → Str → Str
  | _, [] => []
  | k + 1, _ :: rest => subLinkGo k rest
  | 0, c :: rest =>
    if c = '[' then
      match findLinkIdx rest with
      | some (i, j) =>
        lc ("<<<LINK>>>") ++ (rest.drop (i + 2)).take j ++ lc ("<<<LINKTEXT>>>") ++
          rest.take i ++ lc ("<<<ENDLINK>>>") ++ subLinkGo (i + j + 3) rest
      | none => c :: subLinkGo 0 rest
    else c :: subLinkGo 0 rest

/-- `re.sub(r'\[(.*?)\]\((.*?)\)', r'<<<LINK>>>\2<<<LINKTEXT>>>\1<<<ENDLINK>>>', text)`. -/
def subLink (s : Str) : Str := subLinkGo 0 s

/-- One line of a multiline header substitution
`re.sub(r'^MARKER\s+(.*?)$', pre \1 post, text, flags=re.MULTILINE)`:
if the line starts with the marker followed by at least one whitespace
character, the remainder after the maximal whitespace run becomes the group. -/
def hdrLine (marker pre post line : Str) : Str :=
  if marker.isPrefixOf line then
    let rest := line.drop marker.length
    if rest.takeWhile isPySpace = [] then line
    else pre ++ rest.dropWhile isPySpace ++ post
  else line

/-- Apply a per-line transformation to every `'\n'`-separated line
(the effect of a `re.MULTILINE` substitution whose matches are confined to
single lines). -/
def subMultiline (f : Str → Str) (s : Str) : Str := joinNl ((splitNl s).map f)

/-- The escaping pass of `markdown_to_latex`: the seven sequential
`text.replace(char, escaped)` calls, in the source's dict order. -/
def escapeSpecials (s : Str) : Str :=
  let t := pyReplace (lc ("&")) (lc ("\\&")) s
  let t := pyReplace (lc ("%")) (lc ("\\%")) t
  let t := pyReplace (lc ("$")) (lc ("\\$")) t
  let t := pyReplace (lc ("#")) (lc ("\\#")) t
  let t := pyReplace (lc ("_")) (lc ("\\_")) t
  let t := pyReplace (lc ("\x7b")) (lc ("\\\x7b")) t
  let t := pyReplace (lc ("\x7d")) (lc ("\\\x7d")) t
  t

/-- The placeholder-expansion pass of `markdown_to_latex`: the thirteen
sequential `text.replace(sentinel, latex)` calls, in source order. -/
def expandPlaceholders (s : Str) : Str :=
  let t := pyReplace (lc ("<<<H5>>>")) (lc ("\\textit\x7b")) s
  let t := pyReplace (lc ("<<<ENDH5>>>")) (lc ("\x7d\\\\")) t
  let t := pyReplace (lc ("<<<H4>>>")) (lc ("\\textbf\x7b")) t
  let t := pyReplace (lc ("<<<ENDH4>>>")) (lc ("\x7d\\\\")) t
  let t := pyReplace (lc ("<<<BOLD>>>")) (lc ("\\textbf\x7b")) t
  let t := pyReplace (lc ("<<<ENDBOLD>>>")) (lc ("\x7d")) t
  let t := pyReplace (lc ("<<<ITALIC>>>")) (lc ("\\textit\x7b")) t
  let t := pyReplace (lc ("<<<ENDITALIC>>>")) (lc ("\x7d")) t
  let t := pyReplace (lc ("<<<CODE>>>")) (lc ("\\texttt\x7b")) t
  let t := pyReplace (lc ("<<<ENDCODE>>>")) (lc ("\x7d")) t
  let t := pyReplace (lc ("<<<LINK>>>")) (lc ("\\href\x7b")) t
  let t := pyReplace (lc ("<<<LINKTEXT>>>")) (lc ("\x7d\x7b")) t
  let t := pyReplace (lc ("<<<ENDLINK>>>")) (lc ("\x7d")) t
  t

/-- State of the list-conversion loop at the end of `markdown_to_latex`. -/
structure ListSt where
  inList : Bool
  acc : List Str

/-- One iteration of the list-conversion loop. -/
def listStep (st : ListSt) (line : Str) : ListSt :=
  let stripped := pyStrip line
  if (lc ("- ")).isPrefixOf stripped || (lc ("* ")).isPrefixOf stripped then
    let st1 := if st.inList then st
      else { inList := true, acc := st.acc ++ [lc ("\\begin\x7bitemize\x7d")] }
    { st1 with acc := st1.acc ++ [lc ("    \\item ") ++ pyStrip (stripped.drop 2)] }
  else
    let st1 := if st.inList then
        { inList := false, acc := st.acc ++ [lc ("\\end\x7bitemize\x7d")] }
      else st
    if stripped = [] then st1 else { st1 with acc := st1.acc ++ [line] }

/-- The line-oriented markdown-list conversion of `markdown_to_latex`. -/
def listConvert (s : Str) : Str :=
  let fin := (splitNl s).foldl listStep ⟨false, []⟩
  joinNl (if fin.inList then fin.acc ++ [lc ("\\end\x7bitemize\x7d")] else fin.acc)

/-- `markdown_to_latex` from the source: strip, header sentinels (H5, H4),
inline spans (bold, italic, code, link) to sentinels, escaping, placeholder
expansion, the defensive header re-scan, then list conversion. `none` models
the Python `None` returned for blank input. -/
def markdown_to_latex (s : Str) : Option Str :=
  let text := pyStrip s
  if text = [] then none
  else
    let t := subMultiline (hdrLine (lc ("#####")) (lc ("<<<H5>>>")) (lc ("<<<ENDH5>>>"))) text
    let t := subMultiline (hdrLine (lc ("####")) (lc ("<<<H4>>>")) (lc ("<<<ENDH4>>>"))) t
    let t := subSpan (lc ("**")) (lc ("**")) (lc ("<<<BOLD>>>")) (lc ("<<<ENDBOLD>>>")) t
    let t := subSpan (lc ("*")) (lc ("*")) (lc ("<<<ITALIC>>>")) (lc ("<<<ENDITALIC>>>")) t
    let t := subSpan (lc ("`")) (lc ("`")) (lc ("<<<CODE>>>")) (lc ("<<<ENDCODE>>>")) t
    let t := subLink t
    let t := escapeSpecials t
    let t := expandPlaceholders t
    let t := subMultiline (hdrLine (lc ("####")) (lc ("\\textbf\x7b")) (lc ("\x7d"))) t
    let t := subMultiline (hdrLine (lc ("###")) (lc ("\\subsection\x7b")) (lc ("\x7d"))) t
    let t := subMultiline (hdrLine (lc ("##")) (lc ("\\section\x7b")) (lc ("\x7d"))) t
    let t := subMultiline (hdrLine (lc ("#")) (lc ("\\section\x7b")) (lc ("\x7d"))) t
    some (listConvert t)

/-- A markdown cell as extracted from the notebook. -/
structure MdCell where
  cell_index : Nat
  content : Str

/-- A code cell as extracted from the notebook. -/
structure CodeCell where
  cell_index : Nat
  content : Str

/-- An extracted image record (`filename`, `cell_index`, `plot_type`). -/
structure ImageRec where
  filename : Str
  cell_index : Nat
  plot_type : Option Str

/-- `infer_plot_type` from the source: a declared no-op that always returns
`None` (generic figure naming). -/
def infer_plot_type (_cellSource : Str) (_counter : Nat) : Option Str := none

/-- The result record of `extract_title_info`. -/
structure TitleInfo where
  title : Str
  subtitle : Str
  author : Str
  institute : Str

/-- `line_stripped.lstrip('## ').strip()` (the lstrip argument is the
character set containing `'#'` and `' '` at every call site). -/
def hdrText (ls : Str) : Str := pyStrip (lstripHashSpace ls)

/-- The fixed subtitle exclusion list of `extract_title_info`. -/
def exclusionList : List Str :=
  [lc ("problem statement"), lc ("objectives"), lc ("introduction"),
   lc ("the dataset"), lc ("eda"), lc ("models"), lc ("deliverables")]

/-- State of the title/subtitle scan over the first markdown cell's lines. -/
structure TSSt where
  title : Str
  titleFound : Bool
  subtitle : Str

/-- One iteration of the title/subtitle scan of `extract_title_info`. -/
def tsStep (st : TSSt) (line : Str) : TSSt :=
  let ls := pyStrip line
  if (lc ("## ")).isPrefixOf ls && !st.titleFound then
    { st with title := hdrText ls, titleFound := true }
  else if (lc ("# ")).isPrefixOf ls && !st.titleFound then
    { st with title := hdrText ls, titleFound := true }
  else if (lc ("### ")).isPrefixOf ls && st.titleFound && st.subtitle = [] then
    let pot := hdrText ls
    if (pot.map Char.toLower) ∈ exclusionList then st else { st with subtitle := pot }
  else st

/-- `'\n'.join(cell['content'] for cell in markdown_cells)`. -/
def allContent (mds : List MdCell) : Str := joinNl (mds.map MdCell.content)

/-- Try a position matcher at every start position, leftmost match first:
the semantics of `re.search` for the deterministic patterns below. -/
def searchPat (m : Str → Option Str) : Str → Option Str
  | [] => m []
  | s@(_ :: rest) =>
    match m s with
    | some g => some g
    | none => searchPat m rest

/-- Match `I,?\s+\*\*([^*]+)\*\*,` at the current position, returning the
group. -/
def matchAuthor1 : Str → Option Str
  | 'I' :: rest =>
    let r1 := if rest.head? = some ',' then rest.tail else rest
    if r1.takeWhile isPySpace = [] then none
    else
      let r2 := r1.dropWhile isPySpace
      if (lc ("**")).isPrefixOf r2 then
        let r3 := r2.drop 2
        let g := r3.takeWhile (fun c => c ≠ '*')
        if g = [] then none
        else
          let r4 := r3.dropWhile (fun c => c ≠ '*')
          if (lc ("**")).isPrefixOf r4 && (r4.drop 2).head? = some ',' then some g
          else none
      else none
  | _ => none

/-- The regex class `[a-zA-Z\s]`. -/
def isNameChar (c : Char) : Bool := c.isAlpha || isPySpace c

/-- Match `[Uu]ppercase-or-lowercase keyword, optional ':', whitespace,
then the group `([A-Z][a-zA-Z\s]+)`` — the shape of the source's
`Author:`/`By:`/`Name:` patterns. The group is greedy with no trailing
context, so it is the maximal run. -/
def matchLabeled (c1 c2 : Char) (kw : Str) : Str → Option Str
  | [] => none
  | c :: rest =>
    if (c = c1 || c = c2) && kw.isPrefixOf rest then
      let r1 := rest.drop kw.length
      let r2 := if r1.head? = some ':' then r1.tail else r1
      if r2.takeWhile isPySpace = [] then none
      else
        match r2.dropWhile isPySpace with
        | d :: r4 =>
          if 'A' ≤ d && d ≤ 'Z' then
            let run := r4.takeWhile isNameChar
            if run = [] then none else some (d :: run)
          else none
        | [] => none
    else none

/-- The author extraction of `extract_title_info`: the four patterns tried
in fixed priority order over the whole concatenated content; the first
match's group, stripped, wins, else the default `"Author"`. -/
def authorOf (all : Str) : Str :=
  match searchPat matchAuthor1 all with
  | some g => pyStrip g
  | none =>
    match searchPat (matchLabeled 'A' 'a' (lc ("uthor"))) all with
    | some g => pyStrip g
    | none =>
      match searchPat (matchLabeled 'B' 'b' (lc ("y"))) all with
      | some g => pyStrip g
      | none =>
        match searchPat (matchLabeled 'N' 'n' (lc ("ame"))) all with
        | some g => pyStrip g
        | none => lc ("Author")

/-- Match a literal token at the current position (the two literal institute
patterns). -/
def matchLit (tok : Str) : Str → Option Str :=
  fun s => if tok.isPrefixOf s then some tok else none

/-- Match `(University of [A-Z][a-zA-Z\s]+)` at the current position. -/
def matchUnivOf : Str → Option Str := fun s =>
  if (lc ("University of ")).isPrefixOf s then
    match s.drop (lc ("University of ")).length with
    | d :: r2 =>
      if 'A' ≤ d && d ≤ 'Z' then
        let run := r2.takeWhile isNameChar
        if run = [] then none else some (lc ("University of ") ++ d :: run)
      else none
    | [] => none
  else none

/-- Largest `k ≥ 1` such that `tok` occurs at offset `k` of `run`: the
greedy backtracking split of `[A-Z][a-zA-Z\s]+ <tok>`. -/
def lastSplitIdx (tok run : Str) : Option Nat :=
  ((List.range (run.length + 1)).filter
    (fun k => decide (1 ≤ k) && tok.isPrefixOf (run.drop k))).getLast?

/-- Match `([A-Z][a-zA-Z\s]+ University)` (or `College`/`Institute`) at the
current position: capital, greedy name-class run, with the literal `tok`
(including its leading space) placed at the greediest split. -/
def matchCapInst (tok : Str) : Str → Option Str
  | [] => none
  | d :: rest =>
    if 'A' ≤ d && d ≤ 'Z' then
      let run := rest.takeWhile isNameChar
      match lastSplitIdx tok run with
      | some k => some (d :: (run.take k ++ tok))
      | none => none
    else none

/-- The "Colorado Boulder" normalization of `extract_title_info`. -/
def normColorado (s : Str) : Str :=
  if s = lc ("Colorado Boulder") then lc ("University of Colorado Boulder") else s

/-- The institute extraction of `extract_title_info`: six patterns in fixed
priority order; the first match's group, stripped and normalized, wins,
else the default `"Institute"`. -/
def instituteOf (all : Str) : Str :=
  match searchPat (matchLit (lc ("University of Colorado Boulder"))) all with
  | some g => normColorado (pyStrip g)
  | none =>
    match searchPat (matchLit (lc ("Colorado Boulder"))) all with
    | some g => normColorado (pyStrip g)
    | none =>
      match searchPat matchUnivOf all with
      | some g => normColorado (pyStrip g)
      | none =>
        match searchPat (matchCapInst (lc (" University"))) all with
        | some g => normColorado (pyStrip g)
        | none =>
          match searchPat (matchCapInst (lc (" College"))) all with
          | some g => normColorado (pyStrip g)
          | none =>
            match searchPat (matchCapInst (lc (" Institute"))) all with
            | some g => normColorado (pyStrip g)
            | none => lc ("Institute")

/-- `extract_title_info` from the source. -/
def extract_title_info (mds : List MdCell) : TitleInfo :=
  match mds with
  | [] => ⟨lc ("Presentation"), [], lc ("Author"), lc ("Institute")⟩
  | first :: _ =>
    let all := allContent mds
    let fin := (splitNl first.content).foldl tsStep ⟨lc ("Presentation"), false, []⟩
    ⟨fin.title, fin.subtitle, authorOf all, instituteOf all⟩

/-- Decimal digits of a natural number (plain base-10 rendering). -/
def natStrGo : Nat → Nat → Str → Str
  | 0, _, acc => acc
  | fuel + 1, n, acc =>
    if n < 10 then Char.ofNat (48 + n) :: acc
    else natStrGo fuel (n / 10) (Char.ofNat (48 + n % 10) :: acc)

/-- Python `f"{n}"` for a natural number. -/
def natStr (n : Nat) : Str := natStrGo (n + 1) n []

/-- Python `f"{n:03d}"` for a natural number: zero-padded to width 3. -/
def pad3 (n : Nat) : Str := List.replicate (3 - (natStr n).length) '0' ++ natStr n

/-- `f"cell_{cell_idx:03d}.py"`. -/
def codeFileName (cellIdx : Nat) : Str := lc ("cell_") ++ pad3 cellIdx ++ lc (".py")

/-- `convert_markdown_to_frame` from the source: empty/blank body, or a body
whose conversion is empty, yields no frame at all; a non-empty (Python
truthy) title renders as `\begin{frame}{title}`, otherwise `\begin{frame}`. -/
def convert_markdown_to_frame (title content : Str) : Str :=
  if pyStrip content = [] then []
  else
    match markdown_to_latex content with
    | none => []
    | some latexText =>
      if latexText = [] then []
      else
        (if title ≠ [] then lc ("\\begin\x7bframe\x7d\x7b") ++ title ++ lc ("\x7d\n")
         else lc ("\\begin\x7bframe\x7d\n")) ++
        latexText ++ lc ("\n") ++ lc ("\\end\x7bframe\x7d\n\n")

/-- State of the markdown-cell line walk inside `generate_beamer_with_content`
(`current_frame_title`/`current_frame_content`/`in_frame` plus the
accumulated `content_latex`). The Python `None` title is modelled as the
empty string, which the source treats identically (both are falsy and the
title is only ever read through its truthiness or printed when truthy). -/
structure FrameSt where
  inFrame : Bool
  title : Str
  content : List Str
  acc : Str

/-- `f"\n\\section{{{t}}}\n\n"`. -/
def sectionLatex (t : Str) : Str := lc ("\n\\section\x7b") ++ t ++ lc ("\x7d\n\n")

/-- One iteration of the markdown-cell line walk of
`generate_beamer_with_content`, exactly mirroring the source's branch
structure and guards. -/
def frameStep (st : FrameSt) (line : Str) : FrameSt :=
  let ls := pyStrip line
  if (lc ("## ")).isPrefixOf ls then
    let st :=
      if st.inFrame && st.content ≠ [] then
        { st with
          acc := st.acc ++ convert_markdown_to_frame st.title (joinNl st.content)
          content := [] }
      else st
    { st with acc := st.acc ++ sectionLatex (hdrText ls), inFrame := false, title := [] }
  else if (lc ("### ")).isPrefixOf ls then
    let st :=
      if st.inFrame && st.content ≠ [] then
        { st with
          acc := st.acc ++ convert_markdown_to_frame st.title (joinNl st.content)
          content := [] }
      else st
    { st with title := hdrText ls, inFrame := true }
  else if (lc ("# ")).isPrefixOf ls then
    let st :=
      if st.inFrame && st.content ≠ [] then
        { st with
          acc := st.acc ++ convert_markdown_to_frame st.title (joinNl st.content)
          content := [] }
      else st
    { st with acc := st.acc ++ sectionLatex (hdrText ls), inFrame := false, title := [] }
  else if (lc ("---")).isPrefixOf ls then
    if st.inFrame && st.content ≠ [] then
      { st with
        acc := st.acc ++ convert_markdown_to_frame st.title (joinNl st.content)
        content := []
        inFrame := false
        title := [] }
    else st
  else
    let st := if !st.inFrame && ls ≠ [] then { st with inFrame := true, title := [] } else st
    if st.inFrame then { st with content := st.content ++ [line] } else st

/-- The full markdown-cell walk: fold the lines, then close any frame still
open at end of cell. -/
def mdCellLatex (content : Str) : Str :=
  let fin := (splitNl content).foldl frameStep ⟨false, [], [], []⟩
  if fin.inFrame && fin.content ≠ [] then
    fin.acc ++ convert_markdown_to_frame fin.title (joinNl fin.content)
  else fin.acc

/-- The markdown contribution of a cell index:
`next((mc for mc in markdown_cells if mc['cell_index'] == cell_idx), None)`,
then strip, then the line walk when non-blank. -/
def mdPartLatex (mds : List MdCell) (idx : Nat) : Str :=
  match (mds.filter (fun mc => mc.cell_index == idx)).head? with
  | none => []
  | some mc =>
    let content := pyStrip mc.content
    if content = [] then [] else mdCellLatex content

/-- The "large file excluded" placeholder frame for a `>200`-line code cell. -/
def codeFrameLarge (cellIdx : Nat) (numLines : Nat) : Str :=
  lc ("\n\\begin\x7bframe\x7d\x7bCode: Cell ") ++ natStr cellIdx ++
  lc (" (Large File - ") ++ natStr numLines ++ lc (" lines)\x7d\n") ++
  lc ("    \\textbf\x7bNote:\x7d This code cell is very large and has been excluded from the presentation.\n\n") ++
  lc ("    \\vspace\x7b1em\x7d\n\n") ++
  lc ("    The complete code is available in: \\texttt\x7bcode/") ++ codeFileName cellIdx ++
  lc ("\x7d\n\n") ++
  lc ("    \\vspace\x7b1em\x7d\n\n") ++
  lc ("    \\begin\x7bblock\x7d\x7bSummary\x7d\n") ++
  lc ("    This cell contains substantial implementation code that is better reviewed\n") ++
  lc ("    in the source file rather than displayed in presentation slides.\n") ++
  lc ("    \\end\x7bblock\x7d\n\\end\x7bframe\x7d\n\n")

/-- The `allowframebreaks` frame for a 51-to-200-line code cell. -/
def codeFrameBreaks (cellIdx : Nat) : Str :=
  lc ("\n\\begin\x7bframe\x7d[fragile,allowframebreaks]\x7bCode: Cell ") ++ natStr cellIdx ++
  lc ("\x7d\n    \\begin\x7bfigure\x7d\n        \\CODE\x7b") ++ codeFileName cellIdx ++
  lc ("\x7d\n        \\caption\x7bCode from Cell ") ++ natStr cellIdx ++
  lc ("\x7d\n    \\end\x7bfigure\x7d\n\\end\x7bframe\x7d\n\n")

/-- The ordinary single frame for a code cell of at most 50 lines. -/
def codeFrameNormal (cellIdx : Nat) : Str :=
  lc ("\n\\begin\x7bframe\x7d[fragile]\x7bCode: Cell ") ++ natStr cellIdx ++
  lc ("\x7d\n    \\begin\x7bfigure\x7d\n        \\CODE\x7b") ++ codeFileName cellIdx ++
  lc ("\x7d\n        \\caption\x7bCode from Cell ") ++ natStr cellIdx ++
  lc ("\x7d\n    \\end\x7bfigure\x7d\n\\end\x7bframe\x7d\n\n")

/-- The code-cell frame emission of `generate_beamer_with_content`:
`num_lines = content.count('\n') + 1`, then the three-way size policy. -/
def codeCellLatex (cellIdx : Nat) (content : Str) : Str :=
  let numLines := content.count '\n' + 1
  if numLines > 200 then codeFrameLarge cellIdx numLines
  else if numLines > 50 then codeFrameBreaks cellIdx
  else codeFrameNormal cellIdx

/-- Python `str.title()` for ASCII text: a letter starts in upper case when
the previous character is not a letter, otherwise lower case. -/
def pyTitleGo : Bool → Str → Str
  | _, [] => []
  | prevCased, c :: r =>
    (if c.isAlpha then (if prevCased then c.toLower else c.toUpper) else c) ::
      pyTitleGo c.isAlpha r

/-- Python `str.title()`. -/
def pyTitle (s : Str) : Str := pyTitleGo false s

/-- The title and caption of an image frame:
`plot_type.replace('_',' ').title()` when the stored plot type is truthy,
else the generic fallback pair. -/
def imgTitleCaption (cellIdx : Nat) (pt : Option Str) : Str × Str :=
  match pt with
  | some p =>
    if p = [] then (lc ("Analysis Result"), lc ("Output from Cell ") ++ natStr cellIdx)
    else
      let t := pyTitle (p.map (fun c => if c = '_' then ' ' else c))
      (t, t)
  | none => (lc ("Analysis Result"), lc ("Output from Cell ") ++ natStr cellIdx)

/-- One image frame of `generate_beamer_with_content`. -/
def imgFrameLatex (cellIdx : Nat) (im : ImageRec) : Str :=
  let tc := imgTitleCaption cellIdx im.plot_type
  lc ("\n\\begin\x7bframe\x7d\x7b") ++ tc.1 ++
  lc ("\x7d\n    \\begin\x7bfigure\x7d\n        \\centering\n        \\includegraphics[width=0.85\\textwidth,height=0.7\\textheight,keepaspectratio]\x7bassets/figures/") ++
  im.filename ++ lc ("\x7d\n        \\caption\x7b") ++ tc.2 ++
  lc ("\x7d\n    \\end\x7bfigure\x7d\n\\end\x7bframe\x7d\n\n")

/-- `images_by_cell[idx]`: the images of a cell index in extraction order. -/
def imagesAt (imgs : List ImageRec) (idx : Nat) : List ImageRec :=
  imgs.filter (fun im => im.cell_index == idx)

/-- `code_by_cell[idx]`: the dict is built by overwriting, so the last code
cell with the index wins. -/
def codeAt (codes : List CodeCell) (idx : Nat) : Option CodeCell :=
  (codes.filter (fun cc => cc.cell_index == idx)).getLast?

/-- Ordered insertion into a sorted list of indices. -/
def insertSorted (n : Nat) : List Nat → List Nat
  | [] => [n]
  | m :: r => if n ≤ m then n :: m :: r else m :: insertSorted n r

/-- Ascending sort by insertion. -/
def sortNats (l : List Nat) : List Nat := l.foldr insertSorted []

/-- `sorted(all_cell_indices)` where `all_cell_indices` is the set union of
the indices of the three collections: the distinct indices in ascending
order. -/
def cellIndices (mds : List MdCell) (codes : List CodeCell) (imgs : List ImageRec) : List Nat :=
  sortNats ((mds.map MdCell.cell_index ++ codes.map CodeCell.cell_index ++
    imgs.map ImageRec.cell_index).dedup)

/-- Everything `generate_beamer_with_content` emits for one cell index:
markdown part, then code part, then one frame per image. -/
def idxLatex (mds : List MdCell) (codes : List CodeCell) (imgs : List ImageRec)
    (idx : Nat) : Str :=
  mdPartLatex mds idx ++
  (match codeAt codes idx with
   | none => []
   | some cc => codeCellLatex idx cc.content) ++
  (imagesAt imgs idx).foldl (fun acc im => acc ++ imgFrameLatex idx im) []

/-- The content-building loop of `generate_beamer_with_content`: the
`content_latex` string accumulated over the sorted union of cell indices
(the surrounding template population is out of scope). -/
def generate_beamer_content (mds : List MdCell) (codes : List CodeCell)
    (imgs : List ImageRec) : Str :=
  (cellIndices mds codes imgs).foldl (fun acc i => acc ++ idxLatex mds codes imgs i) []

/-- Number of (possibly overlapping) occurrences of `tok` in a string;
used to count frames in generated LaTeX. -/
def countTok (tok : Str) : Str → Nat
  | [] => 0
  | c :: rest => (if tok.isPrefixOf (c :: rest) then 1 else 0) + countTok tok rest

/-- C1: a code cell with line count (newline count + 1) greater than 200
emits the "large file excluded" placeholder frame; a line count between 51
and 200 inclusive emits the `allowframebreaks` overflow frame embedding the
code via the external `\CODE` inclusion; a line count of at most 50 emits
the ordinary single `\CODE` frame. -/
theorem code_cell_size_policy (idx : Nat) (content : Str) :
    (200 < content.count '\n' + 1 →
      codeCellLatex idx content = codeFrameLarge idx (content.count '\n' + 1)) ∧
    (51 ≤ content.count '\n' + 1 ∧ content.count '\n' + 1 ≤ 200 →
      codeCellLatex idx content = codeFrameBreaks idx) ∧
    (content.count '\n' + 1 ≤ 50 →
      codeCellLatex idx content = codeFrameNormal idx) := by
  refine ⟨fun h => ?_, fun h => ?_, fun h => ?_⟩ <;>
    simp only [codeCellLatex] <;>
    [rw [if_pos (by omega)];
     rw [if_neg (by omega), if_pos (by omega)];
     rw [if_neg (by omega), if_neg (by omega)]]

/-- Witness for `code_cell_size_policy`: the boundary line counts 201, 200,
51 and 50. -/
theorem code_cell_size_policy_witness :
    (200 < (List.replicate 200 '\n' : Str).count '\n' + 1 ∧
      codeCellLatex 7 (List.replicate 200 '\n') =
        codeFrameLarge 7 ((List.replicate 200 '\n' : Str).count '\n' + 1)) ∧
    codeCellLatex 7 (List.replicate 199 '\n') = codeFrameBreaks 7 ∧
    codeCellLatex 7 (List.replicate 50 '\n') = codeFrameBreaks 7 ∧
    codeCellLatex 7 (List.replicate 49 '\n') = codeFrameNormal 7 :=
  ⟨⟨by decide, (code_cell_size_policy 7 (List.replicate 200 '\n')).1 (by decide)⟩,
   (code_cell_size_policy 7 (List.replicate 199 '\n')).2.1 (by decide),
   (code_cell_size_policy 7 (List.replicate 50 '\n')).2.1 (by decide),
   (code_cell_size_policy 7 (List.replicate 49 '\n')).2.2 (by decide)⟩

/-- C10: the sentinel markers are plain ASCII bracket sequences, so plain
text that happens to contain the literal substring `<<<BOLD>>>` — with no
markdown markup anywhere — is rewritten into a bold command by the
placeholder-expansion pass. -/
theorem sentinel_collision_rewrites_plain_text :
    markdown_to_latex (lc ("x <<<BOLD>>>y")) = some (lc ("x \\textbf\x7by")) ∧
    countTok (lc ("*")) (lc ("x <<<BOLD>>>y")) = 0 ∧
    countTok (lc ("\\textbf")) (lc ("x <<<BOLD>>>y")) = 0 := by
  refine ⟨by decide, by decide, by decide⟩

/-- C7: with no markdown cells, no code cells and a single image record at
cell index 5 with no inferred category (`plot_type = None`), the assembler
emits exactly one frame; the embedded filename is the record's stored
filename, the frame title is the generic fallback `Analysis Result` and the
caption is `Output from Cell 5`. -/
theorem single_image_fallback_frame (f : Str) :
    generate_beamer_content [] [] [⟨f, 5, none⟩] =
      lc ("\n\\begin\x7bframe\x7d\x7bAnalysis Result\x7d\n    \\begin\x7bfigure\x7d\n        \\centering\n        \\includegraphics[width=0.85\\textwidth,height=0.7\\textheight,keepaspectratio]\x7bassets/figures/") ++
      f ++
      lc ("\x7d\n        \\caption\x7bOutput from Cell 5\x7d\n    \\end\x7bfigure\x7d\n\\end\x7bframe\x7d\n\n") ∧
    countTok (lc ("\\begin\x7bframe\x7d"))
      (generate_beamer_content [] [] [⟨lc ("figure_001.png"), 5, none⟩]) = 1 ∧
    countTok (lc ("\\end\x7bframe\x7d"))
      (generate_beamer_content [] [] [⟨lc ("figure_001.png"), 5, none⟩]) = 1 ∧
    countTok (lc ("figure_001.png"))
      (generate_beamer_content [] [] [⟨lc ("figure_001.png"), 5, none⟩]) = 1 := by
  refine ⟨?_, by decide, by decide, by decide⟩
  simp [generate_beamer_content, cellIndices, sortNats, insertSorted, idxLatex, mdPartLatex,
    codeAt, imagesAt, imgFrameLatex, imgTitleCaption, natStr, natStrGo, lc, List.append_assoc]

/-- C9: the extracted author is the capture of the first matching pattern
among the four author regexes tried in fixed priority order
(`I, **Name**,`; `Author: Name`; `By: Name`; `Name: Name`) against the
concatenation of all markdown content; `I, **Jane Doe**, declare...` yields
`Jane Doe`; when no pattern matches anywhere, or no cell exists, the
default `Author` is returned — the extractor is total and never fails. -/
theorem author_extraction_first_match :
    ((extract_title_info []).author = lc ("Author")) ∧
    (∀ mds g, mds ≠ [] →
      searchPat matchAuthor1 (allContent mds) = some g →
      (extract_title_info mds).author = pyStrip g) ∧
    (∀ mds g, mds ≠ [] →
      searchPat matchAuthor1 (allContent mds) = none →
      searchPat (matchLabeled 'A' 'a' (lc ("uthor"))) (allContent mds) = some g →
      (extract_title_info mds).author = pyStrip g) ∧
    (∀ mds g, mds ≠ [] →
      searchPat matchAuthor1 (allContent mds) = none →
      searchPat (matchLabeled 'A' 'a' (lc ("uthor"))) (allContent mds) = none →
      searchPat (matchLabeled 'B' 'b' (lc ("y"))) (allContent mds) = some g →
      (extract_title_info mds).author = pyStrip g) ∧
    (∀ mds g, mds ≠ [] →
      searchPat matchAuthor1 (allContent mds) = none →
      searchPat (matchLabeled 'A' 'a' (lc ("uthor"))) (allContent mds) = none →
      searchPat (matchLabeled 'B' 'b' (lc ("y"))) (allContent mds) = none →
      searchPat (matchLabeled 'N' 'n' (lc ("ame"))) (allContent mds) = some g →
      (extract_title_info mds).author = pyStrip g) ∧
    (∀ mds,
      searchPat matchAuthor1 (allContent mds) = none →
      searchPat (matchLabeled 'A' 'a' (lc ("uthor"))) (allContent mds) = none →
      searchPat (matchLabeled 'B' 'b' (lc ("y"))) (allContent mds) = none →
      searchPat (matchLabeled 'N' 'n' (lc ("ame"))) (allContent mds) = none →
      (extract_title_info mds).author = lc ("Author")) ∧
    (extract_title_info [⟨0, lc ("I, **Jane Doe**, declare...")⟩]).author = lc ("Jane Doe") := by
  refine ⟨by decide, ?_, ?_, ?_, ?_, ?_, by decide⟩
  · rintro (_ | ⟨c, r⟩) g hne h1
    · exact absurd rfl hne
    · simp [extract_title_info, authorOf, h1]
  · rintro (_ | ⟨c, r⟩) g hne h1 h2
    · exact absurd rfl hne
    · simp [extract_title_info, authorOf, h1, h2]
  · rintro (_ | ⟨c, r⟩) g hne h1 h2 h3
    · exact absurd rfl hne
    · simp [extract_title_info, authorOf, h1, h2, h3]
  · rintro (_ | ⟨c, r⟩) g hne h1 h2 h3 h4
    · exact absurd rfl hne
    · simp [extract_title_info, authorOf, h1, h2, h3, h4]
  · rintro (_ | ⟨c, r⟩) h1 h2 h3 h4
    · decide
    · simp [extract_title_info, authorOf, h1, h2, h3, h4]

/-- Witness for `author_extraction_first_match`: the first pattern matching
the Jane Doe declaration, and the no-match default. -/
theorem author_extraction_first_match_witness :
    (([⟨0, lc ("I, **Jane Doe**, declare...")⟩] : List MdCell) ≠ [] ∧
      searchPat matchAuthor1 (allContent [⟨0, lc ("I, **Jane Doe**, declare...")⟩]) =
        some (lc ("Jane Doe")) ∧
      (extract_title_info [⟨0, lc ("I, **Jane Doe**, declare...")⟩]).author =
        pyStrip (lc ("Jane Doe"))) ∧
    (extract_title_info [⟨3, lc ("nothing matches here")⟩]).author = lc ("Author") :=
  ⟨⟨by simp, by decide,
    author_extraction_first_match.2.1 _ _ (by simp) (by decide)⟩,
   author_extraction_first_match.2.2.2.2.2.1 _ (by decide) (by decide) (by decide) (by decide)⟩

/-- A line that sets the title: the stripped line starts with `## ` or
`# ` (the source checks these two, in that order, before any title is
found). Used to state C8. -/
def isTitleLine (l : Str) : Bool :=
  (lc ("## ")).isPrefixOf (pyStrip l) || (lc ("# ")).isPrefixOf (pyStrip l)

/-- A line accepted as subtitle once the title has been found: stripped
line starts with `### `, and its cleaned header text is non-empty (an empty
text sets the Python subtitle to the falsy `""`, which leaves the scan
looking for a later candidate) and its lowercased form is not in the fixed
seven-entry exclusion list. -/
def acceptableSubtitleLine (l : Str) : Bool :=
  (lc ("### ")).isPrefixOf (pyStrip l) && hdrText (pyStrip l) ≠ [] &&
    ((hdrText (pyStrip l)).map Char.toLower ∉ exclusionList)

/-- Specification-level reading of the subtitle scan after the title line:
the first acceptable `### ` line wins, else the empty default. -/
def subtitleAfterTitle : List Str → Str
  | [] => []
  | l :: r => if acceptableSubtitleLine l then hdrText (pyStrip l) else subtitleAfterTitle r

/-- Specification-level subtitle of a cell's lines: find the first title
line, then the first acceptable subtitle line after it. -/
def specSubtitle : List Str → Str
  | [] => []
  | l :: r => if isTitleLine l then subtitleAfterTitle r else specSubtitle r

/-- Once the subtitle is set (non-empty) with the title found, the scan
state is a fixpoint. -/
theorem tsStep_fixed (st : TSSt) (l : Str) (ht : st.titleFound = true)
    (hs : st.subtitle ≠ []) : tsStep st l = st := by
  simp [tsStep, ht, hs]

/-- Fold version of `tsStep_fixed`. -/
theorem tsFold_fixed (lines : List Str) (st : TSSt) (ht : st.titleFound = true)
    (hs : st.subtitle ≠ []) : lines.foldl tsStep st = st := by
  induction lines with
  | nil => rfl
  | cons l r ih => rw [List.foldl_cons, tsStep_fixed st l ht hs, ih]

/-- After the title is found, the scan computes the first acceptable
subtitle line. -/
theorem tsFold_after_title (lines : List Str) (t : Str) :
    ((lines.foldl tsStep ⟨t, true, []⟩)).subtitle = subtitleAfterTitle lines := by
  induction lines generalizing t with
  | nil => rfl
  | cons l r ih =>
    rw [List.foldl_cons]
    by_cases h3 : (lc ("### ")).isPrefixOf (pyStrip l)
    · by_cases hex : (hdrText (pyStrip l)).map Char.toLower ∈ exclusionList
      · have hstep : tsStep ⟨t, true, []⟩ l = ⟨t, true, []⟩ := by
          simp [tsStep, h3, hex]
        have hacc : acceptableSubtitleLine l = false := by
          simp [acceptableSubtitleLine, h3, hex]
        rw [hstep, ih, subtitleAfterTitle, hacc]
        simp
      · by_cases hpot : hdrText (pyStrip l) = []
        · have hstep : tsStep ⟨t, true, []⟩ l = ⟨t, true, []⟩ := by
            simp [tsStep, h3, hex, hpot]
          have hacc : acceptableSubtitleLine l = false := by
            simp [acceptableSubtitleLine, hpot]
          rw [hstep, ih, subtitleAfterTitle, hacc]
          simp
        · have hstep : tsStep ⟨t, true, []⟩ l = ⟨t, true, hdrText (pyStrip l)⟩ := by
            simp [tsStep, h3, hex]
          have hacc : acceptableSubtitleLine l = true := by
            simp [acceptableSubtitleLine, h3, hex, hpot]
          rw [hstep, tsFold_fixed r _ rfl hpot, subtitleAfterTitle, hacc]
          simp
    · have hstep : tsStep ⟨t, true, []⟩ l = ⟨t, true, []⟩ := by
        simp [tsStep, h3]
      have hacc : acceptableSubtitleLine l = false := by
        simp [acceptableSubtitleLine, h3]
      rw [hstep, ih, subtitleAfterTitle, hacc]
      simp

/-- Before the title is found, the scan computes `specSubtitle`. -/
theorem tsFold_before_title (lines : List Str) (t : Str) :
    ((lines.foldl tsStep ⟨t, false, []⟩)).subtitle = specSubtitle lines := by
  induction lines generalizing t with
  | nil => rfl
  | cons l r ih =>
    rw [List.foldl_cons]
    by_cases h2 : (lc ("## ")).isPrefixOf (pyStrip l)
    · have hstep : tsStep ⟨t, false, []⟩ l = ⟨hdrText (pyStrip l), true, []⟩ := by
        simp [tsStep, h2]
      have htl : isTitleLine l = true := by simp [isTitleLine, h2]
      rw [hstep, tsFold_after_title, specSubtitle, htl]
      simp
    · by_cases h1 : (lc ("# ")).isPrefixOf (pyStrip l)
      · have hstep : tsStep ⟨t, false, []⟩ l = ⟨hdrText (pyStrip l), true, []⟩ := by
          simp [tsStep, h2, h1]
        have htl : isTitleLine l = true := by simp [isTitleLine, h1]
        rw [hstep, tsFold_after_title, specSubtitle, htl]
        simp
      · have hstep : tsStep ⟨t, false, []⟩ l = ⟨t, false, []⟩ := by
          simp [tsStep, h2, h1]
        have htl : isTitleLine l = false := by simp [isTitleLine, h2, h1]
        rw [hstep, ih, specSubtitle, htl]
        simp

/-- C8: for a non-empty collection of markdown cells, the extracted
subtitle is determined by the first line of the first cell that follows the
title line and matches the `### ` heading level, accepted only when its
lowercased text is not one of the seven entries of the fixed exclusion
list (and its text is non-empty, an empty accepted text being
indistinguishable from the default); when no acceptable line exists the
subtitle is the empty-string default. -/
theorem subtitle_first_acceptable (first : MdCell) (rest : List MdCell) :
    (extract_title_info (first :: rest)).subtitle = specSubtitle (splitNl first.content) := by
  simp only [extract_title_info]
  exact tsFold_before_title _ _

/-- `insertSorted` permutes. -/
theorem insertSorted_perm (n : Nat) (l : List Nat) : List.Perm (insertSorted n l) (n :: l) := by
  induction l with
  | nil => rfl
  | cons m r ih =>
    rw [insertSorted]
    by_cases h : n ≤ m
    · rw [if_pos h]
    · rw [if_neg h]
      exact List.Perm.trans (List.Perm.cons m ih) (List.Perm.swap n m r)

/-- `sortNats` permutes. -/
theorem sortNats_perm (l : List Nat) : List.Perm (sortNats l) l := by
  induction l with
  | nil => rfl
  | cons m r ih =>
    exact List.Perm.trans (insertSorted_perm m (sortNats r)) (List.Perm.cons m ih)

/-- Inserting a fresh element keeps the list strictly sorted. -/
theorem insertSorted_sorted (n : Nat) (l : List Nat) (h : List.Pairwise (· < ·) l)
    (hn : n ∉ l) : List.Pairwise (· < ·) (insertSorted n l) := by
  induction l with
  | nil => simp [insertSorted]
  | cons m r ih =>
    rw [insertSorted]
    rcases List.pairwise_cons.mp h with ⟨hm, hr⟩
    by_cases hle : n ≤ m
    · rw [if_pos hle]
      have hnm : n < m := lt_of_le_of_ne hle (fun e => hn (e ▸ List.mem_cons_self n r))
      exact List.pairwise_cons.mpr ⟨fun x hx => by
        rcases List.mem_cons.mp hx with rfl | hx
        · exact hnm
        · exact hnm.trans (hm x hx), h⟩
    · rw [if_neg hle]
      have hmn : m < n := Nat.lt_of_not_le hle
      refine List.pairwise_cons.mpr ⟨fun x hx => ?_, ih hr (fun e => hn (List.mem_cons_of_mem m e))⟩
      rcases List.mem_cons.mp ((insertSorted_perm n r).mem_iff.mp hx) with rfl | hx
      · exact hmn
      · exact hm x hx

/-- Sorting a duplicate-free list yields a strictly ascending list. -/
theorem sortNats_sorted (l : List Nat) (h : l.Nodup) : List.Pairwise (· < ·) (sortNats l) := by
  induction l with
  | nil => exact List.Pairwise.nil
  | cons m r ih =>
    rcases List.nodup_cons.mp h with ⟨hm, hr⟩
    exact insertSorted_sorted m (sortNats r) (ih hr) (fun e => hm ((sortNats_perm r).subset e))

/-- A left fold of appends is the flattened map. -/
theorem foldl_append_flatten {α β : Type} (f : β → List α) (l : List β) (init : List α) :
    l.foldl (fun acc i => acc ++ f i) init = init ++ (l.map f).flatten := by
  induction l generalizing init with
  | nil => simp
  | cons b r ih => simp [ih, List.append_assoc]

/-- C5: the assembler iterates exactly over the ascending-sorted duplicate-
free union of the cell indices of the three collections, and the output is
the concatenation, in that order, of the per-index emissions, each of which
is the markdown part, then the code part, then the image frames. -/
theorem assembler_index_order (mds : List MdCell) (codes : List CodeCell)
    (imgs : List ImageRec) :
    List.Pairwise (· < ·) (cellIndices mds codes imgs) ∧
    (∀ i, i ∈ cellIndices mds codes imgs ↔
      (i ∈ mds.map MdCell.cell_index ∨ i ∈ codes.map CodeCell.cell_index ∨
        i ∈ imgs.map ImageRec.cell_index)) ∧
    generate_beamer_content mds codes imgs =
      ((cellIndices mds codes imgs).map (fun i =>
        mdPartLatex mds i ++
        (match codeAt codes i with
         | none => []
         | some cc => codeCellLatex i cc.content) ++
        (imagesAt imgs i).foldl (fun acc im => acc ++ imgFrameLatex i im) [])).flatten := by
  refine ⟨sortNats_sorted _ (List.nodup_dedup _), fun i => ?_, ?_⟩
  · rw [cellIndices, (sortNats_perm _).mem_iff, List.mem_dedup]
    simp [List.mem_append, or_assoc]
  · rw [generate_beamer_content, foldl_append_flatten, List.nil_append]
    rfl

/-- `split('\n')` never yields an empty list of pieces. -/
theorem splitNl_ne_nil (s : Str) : splitNl s ≠ [] := by
  cases s with
  | nil => simp [splitNl]
  | cons c r =>
    rw [splitNl]
    by_cases h : c = '\n'
    · simp [h]
    · rw [if_neg h]
      cases splitNl r <;> simp

/-- Unfolding `joinNl` on a cons with a non-empty tail. -/
theorem joinNl_cons (x : Str) (L : List Str) (h : L ≠ []) :
    joinNl (x :: L) = x ++ '\n' :: joinNl L := by
  cases L with
  | nil => exact absurd rfl h
  | cons y ys => rfl

/-- Splitting on newlines and joining with newlines is the identity. -/
theorem joinNl_splitNl (s : Str) : joinNl (splitNl s) = s := by
  induction s with
  | nil => rfl
  | cons c r ih =>
    rw [splitNl]
    by_cases h : c = '\n'
    · rw [if_pos h, joinNl_cons _ _ (splitNl_ne_nil r), ih, h]
      rfl
    · rw [if_neg h]
      rcases hr : splitNl r with _ | ⟨l, ls⟩
      · exact absurd hr (splitNl_ne_nil r)
      · cases ls with
        | nil =>
          rw [hr] at ih
          simp only [joinNl] at ih ⊢
          rw [ih]
        | cons l2 ls2 =>
          rw [joinNl_cons _ _ (by simp), List.cons_append]
          rw [hr] at ih
          rw [joinNl_cons _ _ (by simp)] at ih
          rw [ih]

/-- Characters of a line of `splitNl s` are characters of `s`. -/
theorem splitNl_mem_subset (s : Str) (l : Str) (hl : l ∈ splitNl s) (c : Char)
    (hc : c ∈ l) : c ∈ s := by
  induction s generalizing l with
  | nil =>
    simp [splitNl] at hl
    subst hl
    simp at hc
  | cons d r ih =>
    rw [splitNl] at hl
    by_cases h : d = '\n'
    · rw [if_pos h] at hl
      rcases List.mem_cons.mp hl with rfl | hl
      · simp at hc
      · exact List.mem_cons_of_mem d (ih l hl hc)
    · rw [if_neg h] at hl
      rcases hr : splitNl r with _ | ⟨l0, ls⟩
      · exact absurd hr (splitNl_ne_nil r)
      · rw [hr] at hl
        rcases List.mem_cons.mp hl with rfl | hl
        · rcases List.mem_cons.mp hc with rfl | hc
          · exact List.mem_cons_self c r
          · exact List.mem_cons_of_mem d (ih l0 (hr ▸ List.mem_cons_self l0 ls) hc)
        · exact List.mem_cons_of_mem d (ih l (hr ▸ List.mem_cons_of_mem l0 hl) hc)

/-- `lstrip` only removes characters. -/
theorem pyLstrip_subset (s : Str) (c : Char) (hc : c ∈ pyLstrip s) : c ∈ s :=
  (List.dropWhile_sublist _).subset hc

/-- `strip` only removes characters. -/
theorem pyStrip_subset (s : Str) (c : Char) (hc : c ∈ pyStrip s) : c ∈ s := by
  have hc' : c ∈ ((pyLstrip s).reverse.dropWhile isPySpace).reverse := hc
  have h2 := (List.dropWhile_sublist (l := (pyLstrip s).reverse)
    (p := isPySpace)).subset (List.mem_reverse.mp hc')
  exact pyLstrip_subset s c (List.mem_reverse.mp h2)

/-- A prefix match fixes the head character. -/
theorem isPrefixOf_cons_head {p c : Char} {ps rest : Str}
    (h : (p :: ps).isPrefixOf (c :: rest) = true) : p = c := by
  simp [List.isPrefixOf] at h
  exact h.1

/-- A replacement whose pattern head never occurs is the identity. -/
theorem pyRepGo_id (p : Char) (ps repl s : Str) (h : p ∉ s) :
    pyRepGo (p :: ps) repl 0 s = s := by
  induction s with
  | nil => rfl
  | cons c rest ih =>
    rw [pyRepGo, if_neg, ih (fun hm => h (List.mem_cons_of_mem c hm))]
    intro hpre
    exact h (isPrefixOf_cons_head hpre ▸ List.mem_cons_self c rest)

/-- `str.replace` with a pattern whose first character does not occur in
the text is the identity. -/
theorem pyReplace_id (pat repl s : Str) (hne : pat ≠ []) (h : pat.headI ∉ s) :
    pyReplace pat repl s = s := by
  cases pat with
  | nil => exact absurd rfl hne
  | cons p ps => exact (if_neg (by simp)).trans (pyRepGo_id p ps repl s h)

/-- A span substitution whose opening token head never occurs is the
identity (worker). -/
theorem subSpanGo_id (p : Char) (ps cTok pre post s : Str) (h : p ∉ s) :
    subSpanGo (p :: ps) cTok pre post 0 s = s := by
  induction s with
  | nil => rfl
  | cons c rest ih =>
    rw [subSpanGo, if_neg, ih (fun hm => h (List.mem_cons_of_mem c hm))]
    intro hpre
    exact h (isPrefixOf_cons_head hpre ▸ List.mem_cons_self c rest)

/-- A span substitution whose opening token head never occurs is the
identity. -/
theorem subSpan_id (oTok cTok pre post s : Str) (hne : oTok ≠ []) (h : oTok.headI ∉ s) :
    subSpan oTok cTok pre post s = s := by
  cases oTok with
  | nil => exact absurd rfl hne
  | cons p ps => exact subSpanGo_id p ps cTok pre post s h

/-- Link substitution without any `[` is the identity (worker). -/
theorem subLinkGo_id (s : Str) (h : '[' ∉ s) : subLinkGo 0 s = s := by
  induction s with
  | nil => rfl
  | cons c rest ih =>
    have hc : ¬ c = '[' := fun e => h (by rw [e]; exact List.mem_cons_self _ _)
    rw [subLinkGo, if_neg hc, ih (fun hm => h (List.mem_cons_of_mem c hm))]

/-- Link substitution without any `[` is the identity. -/
theorem subLink_id (s : Str) (h : '[' ∉ s) : subLink s = s := subLinkGo_id s h

/-- A header substitution on a line not containing the marker head is the
identity. -/
theorem hdrLine_id (marker pre post line : Str) (hne : marker ≠ [])
    (h : marker.headI ∉ line) : hdrLine marker pre post line = line := by
  rw [hdrLine, if_neg]
  intro hpre
  cases marker with
  | nil => exact hne rfl
  | cons p ps =>
    cases line with
    | nil => simp [List.isPrefixOf] at hpre
    | cons c rest => exact h (isPrefixOf_cons_head hpre ▸ List.mem_cons_self c rest)

/-- A multiline substitution that fixes every line is the identity. -/
theorem subMultiline_id (f : Str → Str) (s : Str) (h : ∀ l ∈ splitNl s, f l = l) :
    subMultiline f s = s := by
  rw [subMultiline, List.map_congr_left h]
  have : List.map (fun (a : Str) => a) (splitNl s) = splitNl s := List.map_id' _
  rw [this, joinNl_splitNl]

/-- On lines without list markers, the list-conversion loop keeps exactly
the non-blank lines, in order. -/
theorem listFold_plain (lines : List Str) (acc : List Str)
    (h : ∀ l ∈ lines, ¬(lc ("- ")).isPrefixOf (pyStrip l) ∧ ¬(lc ("* ")).isPrefixOf (pyStrip l)) :
    lines.foldl listStep ⟨false, acc⟩ =
      ⟨false, acc ++ lines.filter (fun l => pyStrip l ≠ [])⟩ := by
  induction lines generalizing acc with
  | nil => simp
  | cons l r ih =>
    rcases h l (List.mem_cons_self l r) with ⟨h1, h2⟩
    have hr := fun x hx => h x (List.mem_cons_of_mem l hx)
    rw [List.foldl_cons]
    by_cases hb : pyStrip l = []
    · have hstep : listStep ⟨false, acc⟩ l = ⟨false, acc⟩ := by
        simp [listStep, h1, h2, hb]
        exact ⟨by decide, by decide⟩
      rw [hstep, ih acc hr]
      simp [List.filter_cons, hb]
    · have hstep : listStep ⟨false, acc⟩ l = ⟨false, acc ++ [l]⟩ := by
        simp [listStep, h1, h2, hb]
      rw [hstep, ih (acc ++ [l]) hr]
      simp [List.filter_cons, hb]

/-- `listConvert` on marker-free text keeps exactly the non-blank lines. -/
theorem listConvert_plain (s : Str)
    (h : ∀ l ∈ splitNl s, ¬(lc ("- ")).isPrefixOf (pyStrip l) ∧ ¬(lc ("* ")).isPrefixOf (pyStrip l)) :
    listConvert s = joinNl ((splitNl s).filter (fun l => pyStrip l ≠ [])) := by
  rw [listConvert, listFold_plain (splitNl s) [] h]
  simp

/-- Plain text characters for C3: letters, digits, space, newline and two
neutral punctuation marks — none of the escaped specials, no markup
trigger, no header or list marker, no sentinel bracket. -/
def plainChar (c : Char) : Bool :=
  c.isAlphanum || c = ' ' || c = '\n' || c = '.' || c = ','

/-- A non-plain character does not occur in all-plain text. -/
theorem not_mem_plain (t : Str) (hp : ∀ c ∈ t, plainChar c = true) (x : Char)
    (hx : plainChar x = false) : x ∉ t := by
  intro hm
  rw [hp x hm] at hx
  exact Bool.noConfusion hx

/-- C3 (amended): on all-plain input the translator is the identity except
for whitespace structure: the input is stripped of leading/trailing
whitespace and fully blank lines are dropped; everything else is preserved
in order. (The original claim, that structural whitespace is preserved, is
false: see the counterexample.) -/
theorem plain_text_translation (s : Str) (hp : ∀ c ∈ s, plainChar c = true) :
    markdown_to_latex s =
      if pyStrip s = [] then none
      else some (joinNl ((splitNl (pyStrip s)).filter (fun l => pyStrip l ≠ []))) := by
  have hps : ∀ c ∈ pyStrip s, plainChar c = true :=
    fun c hc => hp c (pyStrip_subset s c hc)
  by_cases h0 : pyStrip s = []
  · rw [markdown_to_latex, if_pos h0, if_pos h0]
  · rw [if_neg h0, markdown_to_latex, if_neg h0]
    have hnm : ∀ x : Char, plainChar x = false → x ∉ pyStrip s :=
      fun x hx => not_mem_plain _ hps x hx
    have hlinechar : ∀ l ∈ splitNl (pyStrip s), ∀ x : Char, plainChar x = false → x ∉ l :=
      fun l hl x hx hm =>
        Bool.noConfusion (hx ▸ hps x (splitNl_mem_subset _ l hl x hm))
    have hhdr : ∀ pre post : Str, ∀ marker : Str, marker ≠ [] → marker.headI = '#' →
        subMultiline (hdrLine marker pre post) (pyStrip s) = pyStrip s := by
      intro pre post marker hne hhead
      refine subMultiline_id _ _ (fun l hl => hdrLine_id _ _ _ _ hne ?_)
      rw [hhead]
      exact hlinechar l hl '#' (by decide)
    have hesc : escapeSpecials (pyStrip s) = pyStrip s := by
      simp only [escapeSpecials,
        pyReplace_id (lc ("&")) (lc ("\\&")) (pyStrip s) (by decide) (hnm '&' (by decide)),
        pyReplace_id (lc ("%")) (lc ("\\%")) (pyStrip s) (by decide) (hnm '%' (by decide)),
        pyReplace_id (lc ("$")) (lc ("\\$")) (pyStrip s) (by decide) (hnm '$' (by decide)),
        pyReplace_id (lc ("#")) (lc ("\\#")) (pyStrip s) (by decide) (hnm '#' (by decide)),
        pyReplace_id (lc ("_")) (lc ("\\_")) (pyStrip s) (by decide) (hnm '_' (by decide)),
        pyReplace_id (lc ("\x7b")) (lc ("\\\x7b")) (pyStrip s) (by decide) (hnm '\x7b' (by decide)),
        pyReplace_id (lc ("\x7d")) (lc ("\\\x7d")) (pyStrip s) (by decide) (hnm '\x7d' (by decide))]
    have hexp : expandPlaceholders (pyStrip s) = pyStrip s := by
      simp only [expandPlaceholders,
        pyReplace_id (lc ("<<<H5>>>")) (lc ("\\textit\x7b")) (pyStrip s) (by decide) (hnm '<' (by decide)),
        pyReplace_id (lc ("<<<ENDH5>>>")) (lc ("\x7d\\\\")) (pyStrip s) (by decide) (hnm '<' (by decide)),
        pyReplace_id (lc ("<<<H4>>>")) (lc ("\\textbf\x7b")) (pyStrip s) (by decide) (hnm '<' (by decide)),
        pyReplace_id (lc ("<<<ENDH4>>>")) (lc ("\x7d\\\\")) (pyStrip s) (by decide) (hnm '<' (by decide)),
        pyReplace_id (lc ("<<<BOLD>>>")) (lc ("\\textbf\x7b")) (pyStrip s) (by decide) (hnm '<' (by decide)),
        pyReplace_id (lc ("<<<ENDBOLD>>>")) (lc ("\x7d")) (pyStrip s) (by decide) (hnm '<' (by decide)),
        pyReplace_id (lc ("<<<ITALIC>>>")) (lc ("\\textit\x7b")) (pyStrip s) (by decide) (hnm '<' (by decide)),
        pyReplace_id (lc ("<<<ENDITALIC>>>")) (lc ("\x7d")) (pyStrip s) (by decide) (hnm '<' (by decide)),
        pyReplace_id (lc ("<<<CODE>>>")) (lc ("\\texttt\x7b")) (pyStrip s) (by decide) (hnm '<' (by decide)),
        pyReplace_id (lc ("<<<ENDCODE>>>")) (lc ("\x7d")) (pyStrip s) (by decide) (hnm '<' (by decide)),
        pyReplace_id (lc ("<<<LINK>>>")) (lc ("\\href\x7b")) (pyStrip s) (by decide) (hnm '<' (by decide)),
        pyReplace_id (lc ("<<<LINKTEXT>>>")) (lc ("\x7d\x7b")) (pyStrip s) (by decide) (hnm '<' (by decide)),
        pyReplace_id (lc ("<<<ENDLINK>>>")) (lc ("\x7d")) (pyStrip s) (by decide) (hnm '<' (by decide))]
    have hfin : ∀ l ∈ splitNl (pyStrip s),
        ¬(lc ("- ")).isPrefixOf (pyStrip l) ∧ ¬(lc ("* ")).isPrefixOf (pyStrip l) := by
      intro l hl
      constructor
      · intro hpre
        have hm : '-' ∈ pyStrip l := by
          cases hl2 : pyStrip l with
          | nil => rw [hl2] at hpre; simp [List.isPrefixOf, lc] at hpre
          | cons c rest =>
            rw [hl2] at hpre
            rw [isPrefixOf_cons_head (p := '-') (by simpa [lc] using hpre)]
            exact List.mem_cons_self c rest
        exact hlinechar l hl '-' (by decide) (pyStrip_subset l '-' hm)
      · intro hpre
        have hm : '*' ∈ pyStrip l := by
          cases hl2 : pyStrip l with
          | nil => rw [hl2] at hpre; simp [List.isPrefixOf, lc] at hpre
          | cons c rest =>
            rw [hl2] at hpre
            rw [isPrefixOf_cons_head (p := '*') (by simpa [lc] using hpre)]
            exact List.mem_cons_self c rest
        exact hlinechar l hl '*' (by decide) (pyStrip_subset l '*' hm)
    simp only [
      hhdr (lc ("<<<H5>>>")) (lc ("<<<ENDH5>>>")) (lc ("#####")) (by decide) (by decide),
      hhdr (lc ("<<<H4>>>")) (lc ("<<<ENDH4>>>")) (lc ("####")) (by decide) (by decide),
      subSpan_id (lc ("**")) (lc ("**")) (lc ("<<<BOLD>>>")) (lc ("<<<ENDBOLD>>>")) (pyStrip s)
        (by decide) (hnm '*' (by decide)),
      subSpan_id (lc ("*")) (lc ("*")) (lc ("<<<ITALIC>>>")) (lc ("<<<ENDITALIC>>>")) (pyStrip s)
        (by decide) (hnm '*' (by decide)),
      subSpan_id (lc ("`")) (lc ("`")) (lc ("<<<CODE>>>")) (lc ("<<<ENDCODE>>>")) (pyStrip s)
        (by decide) (hnm '`' (by decide)),
      subLink_id (pyStrip s) (hnm '[' (by decide)),
      hesc, hexp,
      hhdr (lc ("\\textbf\x7b")) (lc ("\x7d")) (lc ("####")) (by decide) (by decide),
      hhdr (lc ("\\subsection\x7b")) (lc ("\x7d")) (lc ("###")) (by decide) (by decide),
      hhdr (lc ("\\section\x7b")) (lc ("\x7d")) (lc ("##")) (by decide) (by decide),
      hhdr (lc ("\\section\x7b")) (lc ("\x7d")) (lc ("#")) (by decide) (by decide)]
    rw [listConvert_plain _ hfin]

/-- C3 counterexample: the blank line between two paragraphs is dropped, so
the output does not equal the input with structural whitespace preserved. -/
theorem plain_text_translation_counterexample :
    markdown_to_latex (lc ("a\n\nb")) = some (lc ("a\nb")) ∧
    ¬ markdown_to_latex (lc ("a\n\nb")) = some (lc ("a\n\nb")) := by
  exact ⟨by decide, by decide⟩

/-- Witness for `plain_text_translation`. -/
theorem plain_text_translation_witness :
    (∀ c ∈ lc ("one line\n\ntwo  line"), plainChar c = true) ∧
    markdown_to_latex (lc ("one line\n\ntwo  line")) =
      (if pyStrip (lc ("one line\n\ntwo  line")) = [] then none
       else some (joinNl ((splitNl (pyStrip (lc ("one line\n\ntwo  line")))).filter
         (fun l => pyStrip l ≠ [])))) :=
  ⟨by decide, plain_text_translation (lc ("one line\n\ntwo  line")) (by decide)⟩

/-- The fixed set of escaped LaTeX special characters of the translator. -/
def latexSpecials : Str := lc ("&%$#_\x7b\x7d")

/-- The per-character effect of the full escaping pass. -/
def escChar (c : Char) : Str := if c ∈ latexSpecials then ['\\', c] else [c]

/-- The thirteen sentinel markers of the span-recognition pass, in source
order. -/
def sentinelToks : List Str :=
  [lc ("<<<H5>>>"), lc ("<<<ENDH5>>>"), lc ("<<<H4>>>"), lc ("<<<ENDH4>>>"),
   lc ("<<<BOLD>>>"), lc ("<<<ENDBOLD>>>"), lc ("<<<ITALIC>>>"), lc ("<<<ENDITALIC>>>"),
   lc ("<<<CODE>>>"), lc ("<<<ENDCODE>>>"), lc ("<<<LINK>>>"), lc ("<<<LINKTEXT>>>"),
   lc ("<<<ENDLINK>>>")]

/-- Number of special characters not immediately preceded by a backslash,
scanning with the previous character (`prev` seeds the character before the
string). -/
def unescAfter (prev : Option Char) : Str → Nat
  | [] => 0
  | c :: rest => (if c ∈ latexSpecials ∧ prev ≠ some '\\' then 1 else 0) + unescAfter (some c) rest

/-- A single-character replacement is a per-character map. -/
theorem pyReplace_single (x : Char) (r s : Str) :
    pyReplace [x] r s = s.flatMap (fun c => if c = x then r else [c]) := by
  rw [pyReplace, if_neg (by simp)]
  induction s with
  | nil => rfl
  | cons c rest ih =>
    rw [List.flatMap_cons, pyRepGo]
    by_cases hc : c = x
    · rw [if_pos (by simp [List.isPrefixOf, hc]), if_pos hc]
      simp [ih]
    · rw [if_neg (by simp [List.isPrefixOf]; exact fun e => hc e.symm), if_neg hc, ih]
      rfl

/-- The seven sequential replaces of the escaping pass amount to the
per-character escape map. -/
theorem escapeSpecials_eq (s : Str) : escapeSpecials s = s.flatMap escChar := by
  have e1 : lc ("&") = ['&'] := rfl
  have e2 : lc ("%") = ['%'] := rfl
  have e3 : lc ("$") = ['$'] := rfl
  have e4 : lc ("#") = ['#'] := rfl
  have e5 : lc ("_") = ['_'] := rfl
  have e6 : lc ("\x7b") = ['\x7b'] := rfl
  have e7 : lc ("\x7d") = ['\x7d'] := rfl
  simp only [escapeSpecials, e1, e2, e3, e4, e5, e6, e7, pyReplace_single,
    List.flatMap_assoc]
  refine List.flatMap_congr (fun c _ => ?_)
  by_cases h1 : c = '&'
  · subst h1; decide
  · by_cases h2 : c = '%'
    · subst h2; decide
    · by_cases h3 : c = '$'
      · subst h3; decide
      · by_cases h4 : c = '#'
        · subst h4; decide
        · by_cases h5 : c = '_'
          · subst h5; decide
          · by_cases h6 : c = '\x7b'
            · subst h6; decide
            · by_cases h7 : c = '\x7d'
              · subst h7; decide
              · have hm : c ∉ latexSpecials := by
                  simp [latexSpecials, lc]
                  exact ⟨h1, h2, h3, h4, h5, h6, h7⟩
                simp [escChar, hm, h1, h2, h3, h4, h5, h6, h7]

/-- Characters of the escape image come from the input or are the escape
backslash. -/
theorem mem_flatMap_escChar (x : Char) (s : Str) (h : x ∈ s.flatMap escChar) :
    x ∈ s ∨ x = '\\' := by
  induction s with
  | nil => simp at h
  | cons c rest ih =>
    rw [List.flatMap_cons, List.mem_append] at h
    rcases h with h | h
    · by_cases hc : c ∈ latexSpecials
      · rw [escChar, if_pos hc] at h
        simp at h
        rcases h with rfl | rfl
        · exact Or.inr rfl
        · exact Or.inl (List.mem_cons_self x rest)
      · rw [escChar, if_neg hc] at h
        simp at h
        subst h
        exact Or.inl (List.mem_cons_self x rest)
    · rcases ih h with h | h
      · exact Or.inl (List.mem_cons_of_mem c h)
      · exact Or.inr h



/-- Whitespace is not escaped. -/
theorem escChar_of_space (c : Char) (h : isPySpace c = true) : escChar c = [c] := by
  rw [escChar, if_neg]
  intro hm
  simp [latexSpecials, lc] at hm
  rcases hm with rfl | rfl | rfl | rfl | rfl | rfl | rfl <;> simp [isPySpace] at h

/-- Escaping commutes with left-stripping. -/
theorem pyLstrip_flatMap (l : Str) :
    pyLstrip (l.flatMap escChar) = (pyLstrip l).flatMap escChar := by
  induction l with
  | nil => rfl
  | cons c rest ih =>
    rw [List.flatMap_cons]
    by_cases hw : isPySpace c = true
    · rw [escChar_of_space c hw]
      show List.dropWhile isPySpace (c :: rest.flatMap escChar) =
        (List.dropWhile isPySpace (c :: rest)).flatMap escChar
      rw [List.dropWhile_cons_of_pos hw, List.dropWhile_cons_of_pos hw]
      exact ih
    · have hw' : isPySpace c = false := by simpa using hw
      by_cases hc : c ∈ latexSpecials
      · rw [escChar, if_pos hc]
        show List.dropWhile isPySpace ('\\' :: c :: rest.flatMap escChar) =
          (List.dropWhile isPySpace (c :: rest)).flatMap escChar
        rw [List.dropWhile_cons_of_neg (by decide),
          List.dropWhile_cons_of_neg (by simp [hw']), List.flatMap_cons, escChar, if_pos hc]
        rfl
      · rw [escChar, if_neg hc]
        show List.dropWhile isPySpace (c :: rest.flatMap escChar) =
          (List.dropWhile isPySpace (c :: rest)).flatMap escChar
        rw [List.dropWhile_cons_of_neg (by simp [hw']),
          List.dropWhile_cons_of_neg (by simp [hw']), List.flatMap_cons, escChar, if_neg hc]
        rfl

/-- `strip` yields a prefix of `lstrip`. -/
theorem pyStrip_prefix_lstrip (y : Str) : pyStrip y <+: pyLstrip y := by
  have h1 : (List.dropWhile isPySpace (pyLstrip y).reverse) <:+ (pyLstrip y).reverse :=
    List.dropWhile_suffix isPySpace
  have h2 := List.reverse_prefix.mpr h1
  rw [List.reverse_reverse] at h2
  exact h2

/-- Escaping never puts a `#` at the head of a line. -/
theorem head_flatMap_ne_hash (l : Str) (h : l.head? ≠ some '#') :
    (l.flatMap escChar).head? ≠ some '#' := by
  cases l with
  | nil => simp
  | cons c rest =>
    rw [List.flatMap_cons]
    by_cases hc : c ∈ latexSpecials
    · rw [escChar, if_pos hc]
      simp
    · rw [escChar, if_neg hc]
      simpa using h

/-- A header substitution is the identity on a line that does not start
with `#`. -/
theorem hdrLine_id_of_head (marker pre post line : Str) (ps : Str)
    (hm : marker = '#' :: ps) (h : line.head? ≠ some '#') :
    hdrLine marker pre post line = line := by
  rw [hdrLine, if_neg]
  intro hpre
  subst hm
  cases line with
  | nil => simp [List.isPrefixOf] at hpre
  | cons c rest => exact h (by rw [← isPrefixOf_cons_head hpre]; rfl)

/-- Newlines are not escaped. -/
theorem escChar_nl : escChar '\n' = ['\n'] := by decide

/-- Escaping maps lines to lines. -/
theorem splitNl_flatMap (s : Str) :
    splitNl (s.flatMap escChar) = (splitNl s).map (fun l => l.flatMap escChar) := by
  induction s with
  | nil => rfl
  | cons c r ih =>
    rw [List.flatMap_cons]
    by_cases hnl : c = '\n'
    · subst hnl
      rw [escChar_nl]
      show splitNl ('\n' :: r.flatMap escChar) = _
      rw [splitNl, if_pos rfl, ih, splitNl, if_pos rfl]
      rfl
    · obtain ⟨l, ls, hsp⟩ := List.exists_cons_of_ne_nil (splitNl_ne_nil r)
      have hrhs : splitNl (c :: r) = (c :: l) :: ls := by
        rw [splitNl, if_neg hnl, hsp]
      by_cases hc : c ∈ latexSpecials
      · rw [escChar, if_pos hc]
        have hbs : ('\\' : Char) ≠ '\n' := by decide
        show splitNl ('\\' :: c :: r.flatMap escChar) = _
        rw [splitNl, if_neg hbs, splitNl, if_neg hnl, ih, hsp, hrhs]
        simp [List.flatMap_cons, escChar, hc]
      · rw [escChar, if_neg hc]
        show splitNl (c :: r.flatMap escChar) = _
        rw [splitNl, if_neg hnl, ih, hsp, hrhs]
        simp [List.flatMap_cons, escChar, hc]

/-- The backslash is not itself an escaped special. -/
theorem specials_not_backslash (x : Char) (hx : x ∈ latexSpecials) : x ≠ '\\' := by
  simp [latexSpecials, lc] at hx
  rcases hx with rfl | rfl | rfl | rfl | rfl | rfl | rfl <;> decide


/-- Occurrences of a special character in a single escaped character. -/
theorem count_escChar (x c : Char) (hx : x ∈ latexSpecials) :
    (escChar c).count x = if c = x then 1 else 0 := by
  by_cases hc : c ∈ latexSpecials
  · rw [escChar, if_pos hc]
    have hb : ('\\' == x) = false := by
      have := specials_not_backslash x hx
      simp
      exact fun e => this e.symm
    simp [List.count_cons, List.count_nil, hb]
  · rw [escChar, if_neg hc]
    simp [List.count_cons, List.count_nil]

/-- Escaping preserves the number of occurrences of each special
character. -/
theorem count_flatMap_esc (x : Char) (hx : x ∈ latexSpecials) (s : Str) :
    (s.flatMap escChar).count x = s.count x := by
  induction s with
  | nil => rfl
  | cons c rest ih =>
    rw [List.flatMap_cons, List.count_append, ih, List.count_cons, count_escChar x c hx]
    by_cases hcx : c = x
    · simp [hcx, Nat.add_comm]
    · simp [hcx]

/-- The character preceding the continuation after scanning a chunk. -/
def lastPrev (prev : Option Char) : Str → Option Char
  | [] => prev
  | c :: rest => lastPrev (some c) rest

/-- `unescAfter` over an append. -/
theorem unescAfter_append (a b : Str) (prev : Option Char) :
    unescAfter prev (a ++ b) = unescAfter prev a + unescAfter (lastPrev prev a) b := by
  induction a generalizing prev with
  | nil => simp [unescAfter, lastPrev]
  | cons c rest ih =>
    rw [List.cons_append, unescAfter, unescAfter, ih (some c), lastPrev, Nat.add_assoc]

/-- In an escape image, every special character is preceded by a
backslash. -/
theorem unescAfter_flatMap (s : Str) (prev : Option Char) :
    unescAfter prev (s.flatMap escChar) = 0 := by
  induction s generalizing prev with
  | nil => rfl
  | cons c rest ih =>
    rw [List.flatMap_cons]
    by_cases hc : c ∈ latexSpecials
    · rw [escChar, if_pos hc]
      show unescAfter prev ('\\' :: c :: rest.flatMap escChar) = 0
      rw [unescAfter, unescAfter, if_neg (fun h => absurd h.1 (by decide)),
        if_neg (by simp [hc]), ih (some c)]
    · rw [escChar, if_neg hc]
      show unescAfter prev (c :: rest.flatMap escChar) = 0
      rw [unescAfter, if_neg (by simp [hc]), ih (some c)]

/-- Joining lines each free of unescaped specials yields a string free of
unescaped specials. -/
theorem unescAfter_joinNl (ls : List Str) (h : ∀ l ∈ ls, ∀ p, unescAfter p l = 0)
    (prev : Option Char) : unescAfter prev (joinNl ls) = 0 := by
  induction ls generalizing prev with
  | nil => rfl
  | cons l rest ih =>
    cases rest with
    | nil => exact h l (List.mem_cons_self l []) prev
    | cons l2 ls2 =>
      rw [joinNl_cons l (l2 :: ls2) (by simp), unescAfter_append,
        h l (List.mem_cons_self _ _) prev]
      rw [unescAfter, if_neg (by simp [latexSpecials, lc]),
        ih (fun x hx => h x (List.mem_cons_of_mem l hx)) (some '\n')]

/-- Counting a non-newline character distributes over a newline join. -/
theorem count_joinNl (x : Char) (hx : x ≠ '\n') (ls : List Str) :
    (joinNl ls).count x = (ls.map (fun l => l.count x)).sum := by
  induction ls with
  | nil => rfl
  | cons l rest ih =>
    cases rest with
    | nil => simp [joinNl]
    | cons l2 ls2 =>
      rw [joinNl_cons l (l2 :: ls2) (by simp), List.count_append, List.count_cons, ih]
      have : (('\n' : Char) == x) = false := by simp; exact fun e => hx e.symm
      rw [this]
      simp [List.map_cons, List.sum_cons]

/-- Dropping blank lines does not change per-line counts that vanish on
blank lines. -/
theorem count_sum_filter_strip (x : Char) (ls : List Str)
    (hws : ∀ l ∈ ls, pyStrip l = [] → l.count x = 0) :
    ((ls.filter (fun l => pyStrip l ≠ [])).map (fun l => l.count x)).sum =
      (ls.map (fun l => l.count x)).sum := by
  induction ls with
  | nil => rfl
  | cons l rest ih =>
    rw [List.filter_cons]
    by_cases hb : pyStrip l = []
    · rw [if_neg (by simp [hb])]
      rw [List.map_cons, List.sum_cons, hws l (List.mem_cons_self _ _) hb,
        ih (fun y hy => hws y (List.mem_cons_of_mem l hy))]
      omega
    · rw [if_pos (by simp [hb])]
      simp only [List.map_cons, List.sum_cons,
        ih (fun y hy => hws y (List.mem_cons_of_mem l hy))]

/-- A string whose lstrip is empty is all whitespace. -/
theorem pyLstrip_nil_all_space (l : Str) (h : pyLstrip l = []) :
    ∀ c ∈ l, isPySpace c = true := by
  induction l with
  | nil => simp
  | cons c rest ih =>
    intro d hd
    by_cases hw : isPySpace c = true
    · rw [pyLstrip, List.dropWhile_cons_of_pos hw] at h
      rcases List.mem_cons.mp hd with rfl | hd
      · exact hw
      · exact ih h d hd
    · rw [pyLstrip, List.dropWhile_cons_of_neg (by simpa using hw)] at h
      exact absurd h (by simp)

/-- A string whose strip is empty is all whitespace. -/
theorem pyStrip_nil_all_space (l : Str) (h : pyStrip l = []) :
    ∀ c ∈ l, isPySpace c = true := by
  have h1 : List.dropWhile isPySpace (pyLstrip l).reverse = [] := by
    have : ((pyLstrip l).reverse.dropWhile isPySpace).reverse = [] := h
    simpa using this
  have h2 : ∀ c ∈ (pyLstrip l).reverse, isPySpace c = true :=
    pyLstrip_nil_all_space _ (by simpa [pyLstrip] using h1)
  intro c hc
  by_cases hw : isPySpace c = true
  · exact hw
  · exfalso
    have hc2 : c ∈ pyLstrip l ∨ isPySpace c = true := by
      clear h h1 h2
      induction l with
      | nil => simp at hc
      | cons d rest ih =>
        by_cases hwd : isPySpace d = true
        · rw [pyLstrip, List.dropWhile_cons_of_pos hwd]
          rcases List.mem_cons.mp hc with rfl | hcc
          · exact Or.inr hwd
          · exact ih hcc
        · rw [pyLstrip, List.dropWhile_cons_of_neg (by simpa using hwd)]
          exact Or.inl hc
    rcases hc2 with hc2 | hc2
    · exact hw (h2 c (List.mem_reverse.mpr hc2))
    · exact hw hc2

/-- A non-whitespace character does not occur in all-whitespace text. -/
theorem count_zero_of_all_space (x : Char) (hx : isPySpace x = false) (l : Str)
    (h : ∀ c ∈ l, isPySpace c = true) : l.count x = 0 := by
  rw [List.count_eq_zero]
  intro hm
  rw [h x hm] at hx
  exact Bool.noConfusion hx

/-- If the escape image is all whitespace, so is the input. -/
theorem flatMap_all_space (l : Str) (h : ∀ c ∈ l.flatMap escChar, isPySpace c = true) :
    ∀ c ∈ l, isPySpace c = true := by
  intro c hc
  refine h c ?_
  refine List.mem_flatMap.mpr ⟨c, hc, ?_⟩
  by_cases hcs : c ∈ latexSpecials
  · rw [escChar, if_pos hcs]; simp
  · rw [escChar, if_neg hcs]; simp

/-- A list-marker prefix of the escape image reflects to the input. -/
theorem dash_prefix_flatMap (y : Str) (h : (lc ("- ")) <+: y.flatMap escChar) :
    (lc ("- ")) <+: y := by
  cases y with
  | nil => simp [lc] at h
  | cons c rest =>
    rw [List.flatMap_cons] at h
    by_cases hc : c ∈ latexSpecials
    · rw [escChar, if_pos hc] at h
      have : (lc ("- ")) = '-' :: [' '] := rfl
      rw [this] at h
      rcases (List.cons_prefix_cons.mp h) with ⟨e, _⟩
      exact absurd e (by decide)
    · rw [escChar, if_neg hc] at h
      have hlc : (lc ("- ")) = '-' :: [' '] := rfl
      rw [hlc] at h ⊢
      rw [List.cons_append] at h
      rcases List.cons_prefix_cons.mp h with ⟨e1, h2⟩
      subst e1
      cases rest with
      | nil => simp [List.flatMap_nil] at h2
      | cons d rest2 =>
        rw [List.flatMap_cons] at h2
        by_cases hd : d ∈ latexSpecials
        · rw [escChar, if_pos hd] at h2
          rcases List.cons_prefix_cons.mp h2 with ⟨e, _⟩
          exact absurd e (by decide)
        · rw [escChar, if_neg hd] at h2
          rw [List.cons_append] at h2
          rcases List.cons_prefix_cons.mp h2 with ⟨e2, _⟩
          subst e2
          exact List.cons_prefix_cons.mpr ⟨rfl, List.cons_prefix_cons.mpr ⟨rfl, List.nil_prefix⟩⟩


/-- A `* ` prefix exhibits a `*`. -/
theorem star_prefix_mem (z : Str) (h : (lc ("* ")).isPrefixOf z = true) : '*' ∈ z := by
  cases z with
  | nil => simp [List.isPrefixOf, lc] at h
  | cons c rest =>
    rw [isPrefixOf_cons_head (p := '*') (by simpa [lc] using h)]
    exact List.mem_cons_self c rest

/-- Plain non-markup text for C4: no inline-markup trigger characters
(`*`, backtick, `[`, `<`), no line starting with `#` (header context), and
no list-marker line. The seven special characters are allowed anywhere. -/
def c4Plain (s : Str) : Prop :=
  (∀ c ∈ s, c ≠ '*' ∧ c ≠ '`' ∧ c ≠ '[' ∧ c ≠ '<') ∧
  (∀ l ∈ splitNl (pyStrip s), l.head? ≠ some '#' ∧ ¬ (lc ("- ")) <+: pyLstrip l)

/-- Escaping is the identity on special-free text. -/
theorem flatMap_esc_id (t : Str) (h : ∀ c ∈ t, c ∉ latexSpecials) :
    t.flatMap escChar = t := by
  induction t with
  | nil => rfl
  | cons c rest ih =>
    rw [List.flatMap_cons, escChar, if_neg (h c (List.mem_cons_self c rest)),
      ih (fun d hd => h d (List.mem_cons_of_mem c hd))]
    rfl

/-- No special character is a newline. -/
theorem specials_ne_nl : ∀ x ∈ latexSpecials, x ≠ '\n' := by decide

/-- No special character is whitespace. -/
theorem specials_not_space : ∀ x ∈ latexSpecials, isPySpace x = false := by decide

/-- C4: the escaping pass leaves every sentinel marker unchanged (the
sentinels share no character with the escaped set), and on plain
(non-markup) input every occurrence of the characters
`& % \x24 # _ \x7b \x7d` survives into the output (counts are preserved)
and every such occurrence is immediately preceded by the backslash escape
marker — no special appears unescaped. -/
theorem escaping_of_specials :
    (∀ tok ∈ sentinelToks, escapeSpecials tok = tok) ∧
    (∀ a b : Str, ∀ tok ∈ sentinelToks,
      escapeSpecials (a ++ (tok ++ b)) = escapeSpecials a ++ (tok ++ escapeSpecials b)) ∧
    (∀ s o : Str, c4Plain s → markdown_to_latex s = some o →
      unescAfter none o = 0 ∧ ∀ x ∈ latexSpecials, o.count x = (pyStrip s).count x) := by
  have hTokPlain : ∀ tok ∈ sentinelToks, ∀ c ∈ tok, c ∉ latexSpecials := by decide
  refine ⟨by decide, ?_, ?_⟩
  · intro a b tok htok
    rw [escapeSpecials_eq, escapeSpecials_eq a, escapeSpecials_eq b,
      List.flatMap_append, List.flatMap_append, flatMap_esc_id tok (hTokPlain tok htok)]
  · intro s o hp ho
    by_cases h0 : pyStrip s = []
    · rw [markdown_to_latex, if_pos h0] at ho
      exact absurd ho (by simp)
    · rw [markdown_to_latex, if_neg h0] at ho
      have hstar : '*' ∉ pyStrip s :=
        fun hm => ((hp.1 '*' (pyStrip_subset s '*' hm)).1) rfl
      have htick : '`' ∉ pyStrip s :=
        fun hm => ((hp.1 '`' (pyStrip_subset s '`' hm)).2.1) rfl
      have hbrack : '[' ∉ pyStrip s :=
        fun hm => ((hp.1 '[' (pyStrip_subset s '[' hm)).2.2.1) rfl
      have hlt : '<' ∉ pyStrip s :=
        fun hm => ((hp.1 '<' (pyStrip_subset s '<' hm)).2.2.2) rfl
      have hhdr1 : ∀ pre post marker ps : Str, marker = '#' :: ps →
          subMultiline (hdrLine marker pre post) (pyStrip s) = pyStrip s :=
        fun pre post marker ps hm =>
          subMultiline_id _ _ (fun l hl =>
            hdrLine_id_of_head marker pre post l ps hm ((hp.2 l hl).1))
      have hltE : '<' ∉ (pyStrip s).flatMap escChar := by
        intro hm
        rcases mem_flatMap_escChar '<' (pyStrip s) hm with hm | hm
        · exact hlt hm
        · exact absurd hm (by decide)
      have hlinesE : ∀ l' ∈ splitNl ((pyStrip s).flatMap escChar),
          ∃ l ∈ splitNl (pyStrip s), l' = l.flatMap escChar := by
        intro l' hl'
        rw [splitNl_flatMap] at hl'
        rcases List.mem_map.mp hl' with ⟨l, hl, he⟩
        exact ⟨l, hl, he.symm⟩
      have hhdr2 : ∀ pre post marker ps : Str, marker = '#' :: ps →
          subMultiline (hdrLine marker pre post) ((pyStrip s).flatMap escChar) =
            (pyStrip s).flatMap escChar := by
        intro pre post marker ps hm
        refine subMultiline_id _ _ (fun l' hl' => ?_)
        rcases hlinesE l' hl' with ⟨l, hl, rfl⟩
        exact hdrLine_id_of_head marker pre post _ ps hm
          (head_flatMap_ne_hash l ((hp.2 l hl).1))
      have hexpE : expandPlaceholders ((pyStrip s).flatMap escChar) =
          (pyStrip s).flatMap escChar := by
        simp only [expandPlaceholders,
          pyReplace_id (lc ("<<<H5>>>")) (lc ("\\textit\x7b")) _ (by decide) hltE,
          pyReplace_id (lc ("<<<ENDH5>>>")) (lc ("\x7d\\\\")) _ (by decide) hltE,
          pyReplace_id (lc ("<<<H4>>>")) (lc ("\\textbf\x7b")) _ (by decide) hltE,
          pyReplace_id (lc ("<<<ENDH4>>>")) (lc ("\x7d\\\\")) _ (by decide) hltE,
          pyReplace_id (lc ("<<<BOLD>>>")) (lc ("\\textbf\x7b")) _ (by decide) hltE,
          pyReplace_id (lc ("<<<ENDBOLD>>>")) (lc ("\x7d")) _ (by decide) hltE,
          pyReplace_id (lc ("<<<ITALIC>>>")) (lc ("\\textit\x7b")) _ (by decide) hltE,
          pyReplace_id (lc ("<<<ENDITALIC>>>")) (lc ("\x7d")) _ (by decide) hltE,
          pyReplace_id (lc ("<<<CODE>>>")) (lc ("\\texttt\x7b")) _ (by decide) hltE,
          pyReplace_id (lc ("<<<ENDCODE>>>")) (lc ("\x7d")) _ (by decide) hltE,
          pyReplace_id (lc ("<<<LINK>>>")) (lc ("\\href\x7b")) _ (by decide) hltE,
          pyReplace_id (lc ("<<<LINKTEXT>>>")) (lc ("\x7d\x7b")) _ (by decide) hltE,
          pyReplace_id (lc ("<<<ENDLINK>>>")) (lc ("\x7d")) _ (by decide) hltE]
      have hfinE : ∀ l' ∈ splitNl ((pyStrip s).flatMap escChar),
          ¬(lc ("- ")).isPrefixOf (pyStrip l') ∧ ¬(lc ("* ")).isPrefixOf (pyStrip l') := by
        intro l' hl'
        rcases hlinesE l' hl' with ⟨l, hl, rfl⟩
        constructor
        · intro hpre
          have h1 : (lc ("- ")) <+: pyStrip (l.flatMap escChar) :=
            List.isPrefixOf_iff_prefix.mp hpre
          have h2 : (lc ("- ")) <+: pyLstrip (l.flatMap escChar) :=
            h1.trans (pyStrip_prefix_lstrip _)
          rw [pyLstrip_flatMap] at h2
          exact (hp.2 l hl).2 (dash_prefix_flatMap _ h2)
        · intro hpre
          have h1 : '*' ∈ pyStrip (l.flatMap escChar) := star_prefix_mem _ hpre
          have h2 : '*' ∈ l.flatMap escChar := pyStrip_subset _ _ h1
          rcases mem_flatMap_escChar '*' l h2 with hm | hm
          · exact hstar (splitNl_mem_subset _ l hl '*' hm)
          · exact absurd hm (by decide)
      simp only [
        hhdr1 (lc ("<<<H5>>>")) (lc ("<<<ENDH5>>>")) (lc ("#####")) (lc ("####")) rfl,
        hhdr1 (lc ("<<<H4>>>")) (lc ("<<<ENDH4>>>")) (lc ("####")) (lc ("###")) rfl,
        subSpan_id (lc ("**")) (lc ("**")) (lc ("<<<BOLD>>>")) (lc ("<<<ENDBOLD>>>"))
          (pyStrip s) (by decide) hstar,
        subSpan_id (lc ("*")) (lc ("*")) (lc ("<<<ITALIC>>>")) (lc ("<<<ENDITALIC>>>"))
          (pyStrip s) (by decide) hstar,
        subSpan_id (lc ("`")) (lc ("`")) (lc ("<<<CODE>>>")) (lc ("<<<ENDCODE>>>"))
          (pyStrip s) (by decide) htick,
        subLink_id (pyStrip s) hbrack, escapeSpecials_eq,
        hhdr2 (lc ("\\textbf\x7b")) (lc ("\x7d")) (lc ("####")) (lc ("###")) rfl,
        hhdr2 (lc ("\\subsection\x7b")) (lc ("\x7d")) (lc ("###")) (lc ("##")) rfl,
        hhdr2 (lc ("\\section\x7b")) (lc ("\x7d")) (lc ("##")) (lc ("#")) rfl,
        hhdr2 (lc ("\\section\x7b")) (lc ("\x7d")) (lc ("#")) ([]) rfl,
        hexpE, listConvert_plain _ hfinE] at ho
      obtain rfl := (Option.some.inj ho).symm
      constructor
      · refine unescAfter_joinNl _ ?_ none
        intro l' hl' p
        rcases hlinesE l' (List.mem_of_mem_filter hl') with ⟨l, hl, rfl⟩
        exact unescAfter_flatMap l p
      · intro x hx
        have hxnl : x ≠ '\n' := specials_ne_nl x hx
        have hxsp : isPySpace x = false := specials_not_space x hx
        rw [count_joinNl x hxnl,
          count_sum_filter_strip x _ (fun l hl hb =>
            count_zero_of_all_space x hxsp l (pyStrip_nil_all_space l hb)),
          ← count_joinNl x hxnl, joinNl_splitNl, count_flatMap_esc x hx]

/-- `c4Plain` is decidable, so witnesses can be checked by evaluation. -/
instance c4PlainDecidable (s : Str) : Decidable (c4Plain s) := by
  unfold c4Plain
  infer_instance

/-- Witness for `escaping_of_specials`. -/
theorem escaping_of_specials_witness :
    (escapeSpecials (lc ("x ") ++ (lc ("<<<BOLD>>>") ++ lc (" y_"))) =
      escapeSpecials (lc ("x ")) ++ (lc ("<<<BOLD>>>") ++ escapeSpecials (lc (" y_")))) ∧
    c4Plain (lc ("a # b_c & 10% x")) ∧
    markdown_to_latex (lc ("a # b_c & 10% x")) = some (lc ("a \\# b\\_c \\& 10\\% x")) ∧
    unescAfter none (lc ("a \\# b\\_c \\& 10\\% x")) = 0 ∧
    (∀ x ∈ latexSpecials, (lc ("a \\# b\\_c \\& 10\\% x")).count x =
      (pyStrip (lc ("a # b_c & 10% x"))).count x) :=
  ⟨escaping_of_specials.2.1 _ _ _ (by decide), by decide, by decide,
   (escaping_of_specials.2.2 (lc ("a # b_c & 10% x")) (lc ("a \\# b\\_c \\& 10\\% x"))
     (by decide) (by decide)).1,
   (escaping_of_specials.2.2 (lc ("a # b_c & 10% x")) (lc ("a \\# b\\_c \\& 10\\% x"))
     (by decide) (by decide)).2⟩

/-- Number of `#` characters not immediately preceded by a backslash. -/
def nakedHash (prev : Option Char) : Str → Nat
  | [] => 0
  | c :: rest => (if c = '#' ∧ prev ≠ some '\\' then 1 else 0) + nakedHash (some c) rest

/-- `nakedHash` over an append. -/
theorem nakedHash_append (a b : Str) (prev : Option Char) :
    nakedHash prev (a ++ b) = nakedHash prev a + nakedHash (lastPrev prev a) b := by
  induction a generalizing prev with
  | nil => simp [nakedHash, lastPrev]
  | cons c rest ih =>
    rw [List.cons_append, nakedHash, nakedHash, ih (some c), lastPrev, Nat.add_assoc]

/-- Hash-free text has no naked hashes. -/
theorem nakedHash_of_no_hash (a : Str) (h : '#' ∉ a) (prev : Option Char) :
    nakedHash prev a = 0 := by
  induction a generalizing prev with
  | nil => rfl
  | cons c rest ih =>
    have hch : c ≠ '#' := fun e => h (e ▸ List.mem_cons_self c rest)
    rw [nakedHash, if_neg (by intro hc; exact hch hc.1),
      ih (fun hm => h (List.mem_cons_of_mem c hm)) (some c)]

/-- The escaping pass leaves no naked hash: every `#` comes out as `\#`. -/
theorem nakedHash_flatMap (s : Str) (prev : Option Char) :
    nakedHash prev (s.flatMap escChar) = 0 := by
  induction s generalizing prev with
  | nil => rfl
  | cons c rest ih =>
    rw [List.flatMap_cons]
    by_cases hc : c ∈ latexSpecials
    · rw [escChar, if_pos hc]
      show nakedHash prev ('\\' :: c :: rest.flatMap escChar) = 0
      rw [nakedHash, nakedHash, if_neg (by simp), if_neg (by simp), ih (some c)]
    · rw [escChar, if_neg hc]
      show nakedHash prev (c :: rest.flatMap escChar) = 0
      have hch : c ≠ '#' := fun e => hc (e ▸ (by decide))
      rw [nakedHash, if_neg (by intro hcc; exact hch hcc.1), ih (some c)]

/-- When the preceding character is not a backslash, a zero naked-hash
count is independent of the preceding character. -/
theorem nakedHash_switch_prev (b : Str) (p p' : Option Char) (hp : p ≠ some '\\')
    (h : nakedHash p b = 0) : nakedHash p' b = 0 := by
  cases b with
  | nil => rfl
  | cons d t =>
    rw [nakedHash] at h ⊢
    have hd : d ≠ '#' := by
      intro e
      rw [if_pos ⟨e, hp⟩] at h
      omega
    rw [if_neg (by intro hc; exact hd hc.1)]
    rw [if_neg (by intro hc; exact hd hc.1)] at h
    exact h

/-- `lastPrev` of a non-empty chunk is its last character. -/
theorem lastPrev_of_ne_nil (a : Str) (prev : Option Char) (h : a ≠ []) :
    lastPrev prev a = some (a.getLast h) := by
  induction a generalizing prev with
  | nil => exact absurd rfl h
  | cons c rest ih =>
    cases rest with
    | nil => rfl
    | cons d t => rw [lastPrev, ih (some c) (by simp), List.getLast_cons_cons]

/-- Skipping `k` characters is dropping them. -/
theorem pyRepGo_skip (pat repl : Str) (k : Nat) (s : Str) :
    pyRepGo pat repl k s = pyRepGo pat repl 0 (s.drop k) := by
  induction s generalizing k with
  | nil => cases k <;> rfl
  | cons c rest ih =>
    cases k with
    | zero => rfl
    | succ m => rw [pyRepGo, ih m, List.drop_succ_cons]

/-- `str.replace` with a hash-free pattern not ending in a backslash and a
hash-free replacement preserves the absence of naked hashes. -/
theorem pyRepGo_nakedHash (pat repl : Str) (hne : pat ≠ []) (hpat : '#' ∉ pat)
    (hlast : pat.getLast hne ≠ '\\') (hrepl : '#' ∉ repl) :
    ∀ n (s : Str), s.length ≤ n → ∀ prev, nakedHash prev s = 0 →
      nakedHash prev (pyRepGo pat repl 0 s) = 0 := by
  intro n
  induction n with
  | zero =>
    intro s hs prev h
    rw [List.length_eq_zero.mp (Nat.le_zero.mp hs)]
    rfl
  | succ m ih =>
    intro s hs prev h
    cases s with
    | nil => rfl
    | cons c rest =>
      rw [pyRepGo]
      by_cases hpre : pat.isPrefixOf (c :: rest)
      · rw [if_pos hpre, pyRepGo_skip]
        have hpfx : pat <+: (c :: rest) := List.isPrefixOf_iff_prefix.mp hpre
        have hsplit : pat ++ List.drop pat.length (c :: rest) = c :: rest := by
          rcases hpfx with ⟨t, ht⟩
          rw [← ht, List.drop_left]
        have hdrop : (rest.drop (pat.length - 1)) = List.drop pat.length (c :: rest) := by
          cases pat with
          | nil => exact absurd rfl hne
          | cons p ps => simp
        rw [hdrop]
        have hzero : nakedHash (lastPrev prev pat) (List.drop pat.length (c :: rest)) = 0 := by
          have := nakedHash_append pat (List.drop pat.length (c :: rest)) prev
          rw [hsplit, h, nakedHash_of_no_hash pat hpat prev] at this
          omega
        have hplast : lastPrev prev pat = some (pat.getLast hne) :=
          lastPrev_of_ne_nil pat prev hne
        have hb : ∀ p', nakedHash p' (List.drop pat.length (c :: rest)) = 0 := by
          intro p'
          refine nakedHash_switch_prev _ (lastPrev prev pat) p' ?_ hzero
          rw [hplast]
          intro e
          exact hlast (Option.some.inj e)
        rw [nakedHash_append]
        rw [nakedHash_of_no_hash repl hrepl prev]
        have hlen : (List.drop pat.length (c :: rest)).length ≤ m := by
          have h1 : (List.drop pat.length (c :: rest)).length =
              (c :: rest).length - pat.length := List.length_drop _ _
          have h2 : 1 ≤ pat.length := by
            cases pat
            · exact absurd rfl hne
            · simp
          simp only [List.length_cons] at h1 hs ⊢
          omega
        rw [ih (List.drop pat.length (c :: rest)) hlen (lastPrev prev repl) (hb _)]
      · rw [if_neg hpre]
        rw [nakedHash] at h ⊢
        have h1 : (if c = '#' ∧ prev ≠ some '\\' then 1 else 0) = 0 := by omega
        have h2 : nakedHash (some c) rest = 0 := by omega
        rw [h1, ih rest (by simpa using Nat.lt_succ_iff.mp (Nat.lt_of_lt_of_le
          (by simp [Nat.lt_succ_iff]) hs)) (some c) h2]

/-- Wrapper of `pyRepGo_nakedHash` for `pyReplace`. -/
theorem pyReplace_nakedHash (pat repl s : Str) (hne : pat ≠ []) (hpat : '#' ∉ pat)
    (hlast : pat.getLast hne ≠ '\\') (hrepl : '#' ∉ repl) (prev : Option Char)
    (h : nakedHash prev s = 0) : nakedHash prev (pyReplace pat repl s) = 0 := by
  rw [pyReplace, if_neg hne]
  exact pyRepGo_nakedHash pat repl hne hpat hlast hrepl s.length s (Nat.le_refl _) prev h

/-- In text without naked hashes, no line beyond the first starts with
`#`; when the seed character is not a backslash, no line at all does. -/
theorem nakedHash_lines (s : Str) :
    ∀ p, nakedHash p s = 0 →
      (∀ l ∈ (splitNl s).tail, l.head? ≠ some '#') ∧
      (p ≠ some '\\' → ∀ l ∈ splitNl s, l.head? ≠ some '#') := by
  induction s with
  | nil =>
    intro p _
    exact ⟨by simp [splitNl], fun _ l hl => by simp [splitNl] at hl; simp [hl]⟩
  | cons c r ih =>
    intro p h
    rw [nakedHash] at h
    have htail : nakedHash (some c) r = 0 := by omega
    by_cases hnl : c = '\n'
    · subst hnl
      have hall := (ih (some '\n') htail).2 (by simp)
      constructor
      · intro l hl
        rw [splitNl, if_pos rfl] at hl
        exact hall l hl
      · intro _ l hl
        rw [splitNl, if_pos rfl] at hl
        rcases List.mem_cons.mp hl with rfl | hl
        · simp
        · exact hall l hl
    · obtain ⟨l0, ls, hsp⟩ := List.exists_cons_of_ne_nil (splitNl_ne_nil r)
      have hspc : splitNl (c :: r) = (c :: l0) :: ls := by
        rw [splitNl, if_neg hnl, hsp]
      have htl := (ih (some c) htail).1
      rw [hsp] at htl
      constructor
      · intro l hl
        rw [hspc] at hl
        exact htl l hl
      · intro hp l hl
        have hch : c ≠ '#' := by
          intro e
          rw [if_pos ⟨e, hp⟩] at h
          omega
        rw [hspc] at hl
        rcases List.mem_cons.mp hl with rfl | hl
        · simpa using hch
        · exact htl l hl

/-- The text the defensive header re-scan of `markdown_to_latex` receives:
the result of the header-sentinel, span-sentinel, escaping and
placeholder-expansion passes. -/
def midStage (s : Str) : Str :=
  expandPlaceholders (escapeSpecials (subLink
    (subSpan (lc ("`")) (lc ("`")) (lc ("<<<CODE>>>")) (lc ("<<<ENDCODE>>>"))
      (subSpan (lc ("*")) (lc ("*")) (lc ("<<<ITALIC>>>")) (lc ("<<<ENDITALIC>>>"))
        (subSpan (lc ("**")) (lc ("**")) (lc ("<<<BOLD>>>")) (lc ("<<<ENDBOLD>>>"))
          (subMultiline (hdrLine (lc ("####")) (lc ("<<<H4>>>")) (lc ("<<<ENDH4>>>")))
            (subMultiline (hdrLine (lc ("#####")) (lc ("<<<H5>>>")) (lc ("<<<ENDH5>>>")))
              (pyStrip s))))))))

/-- The placeholder expansion preserves the absence of naked hashes: no
sentinel contains `#` or ends in a backslash, and no replacement contains
`#`. -/
theorem expandPlaceholders_nakedHash (t : Str) (prev : Option Char)
    (h : nakedHash prev t = 0) : nakedHash prev (expandPlaceholders t) = 0 := by
  apply pyReplace_nakedHash _ _ _ (by decide) (by decide) (by decide) (by decide)
  apply pyReplace_nakedHash _ _ _ (by decide) (by decide) (by decide) (by decide)
  apply pyReplace_nakedHash _ _ _ (by decide) (by decide) (by decide) (by decide)
  apply pyReplace_nakedHash _ _ _ (by decide) (by decide) (by decide) (by decide)
  apply pyReplace_nakedHash _ _ _ (by decide) (by decide) (by decide) (by decide)
  apply pyReplace_nakedHash _ _ _ (by decide) (by decide) (by decide) (by decide)
  apply pyReplace_nakedHash _ _ _ (by decide) (by decide) (by decide) (by decide)
  apply pyReplace_nakedHash _ _ _ (by decide) (by decide) (by decide) (by decide)
  apply pyReplace_nakedHash _ _ _ (by decide) (by decide) (by decide) (by decide)
  apply pyReplace_nakedHash _ _ _ (by decide) (by decide) (by decide) (by decide)
  apply pyReplace_nakedHash _ _ _ (by decide) (by decide) (by decide) (by decide)
  apply pyReplace_nakedHash _ _ _ (by decide) (by decide) (by decide) (by decide)
  apply pyReplace_nakedHash _ _ _ (by decide) (by decide) (by decide) (by decide)
  exact h

/-- After escaping and expansion every `#` is preceded by a backslash. -/
theorem midStage_nakedHash (s : Str) (prev : Option Char) :
    nakedHash prev (midStage s) = 0 := by
  apply expandPlaceholders_nakedHash
  rw [show escapeSpecials (subLink
    (subSpan (lc ("`")) (lc ("`")) (lc ("<<<CODE>>>")) (lc ("<<<ENDCODE>>>"))
      (subSpan (lc ("*")) (lc ("*")) (lc ("<<<ITALIC>>>")) (lc ("<<<ENDITALIC>>>"))
        (subSpan (lc ("**")) (lc ("**")) (lc ("<<<BOLD>>>")) (lc ("<<<ENDBOLD>>>"))
          (subMultiline (hdrLine (lc ("####")) (lc ("<<<H4>>>")) (lc ("<<<ENDH4>>>")))
            (subMultiline (hdrLine (lc ("#####")) (lc ("<<<H5>>>")) (lc ("<<<ENDH5>>>")))
              (pyStrip s))))))) = _ from escapeSpecials_eq _]
  exact nakedHash_flatMap _ prev

/-- No line of the re-scan input starts with `#`. -/
theorem midStage_lines (s : Str) : ∀ l ∈ splitNl (midStage s), l.head? ≠ some '#' :=
  (nakedHash_lines (midStage s) none (midStage_nakedHash s none)).2 (by simp)

/-- C2 (amended): the final header re-scan of `markdown_to_latex` never
fires — by the time it runs, the escaping pass has prefixed every `#` with
a backslash, so no line starts with a header marker and each of the four
re-scan substitutions is the identity; `markdown_to_latex` therefore equals
the pipeline with the re-scan removed. A surviving header line is NOT
normalized into a section/subsection/bold command; it appears with escaped
literal hash characters (see the counterexample). -/
theorem header_rescan_dead :
    (∀ s pre post marker ps : Str, marker = '#' :: ps →
      subMultiline (hdrLine marker pre post) (midStage s) = midStage s) ∧
    (∀ s : Str, markdown_to_latex s =
      if pyStrip s = [] then none else some (listConvert (midStage s))) := by
  have hid : ∀ s pre post marker ps : Str, marker = '#' :: ps →
      subMultiline (hdrLine marker pre post) (midStage s) = midStage s :=
    fun s pre post marker ps hm =>
      subMultiline_id _ _ (fun l hl =>
        hdrLine_id_of_head marker pre post l ps hm (midStage_lines s l hl))
  refine ⟨hid, fun s => ?_⟩
  by_cases h0 : pyStrip s = []
  · rw [markdown_to_latex, if_pos h0, if_pos h0]
  · rw [markdown_to_latex, if_neg h0, if_neg h0]
    have hu : ∀ pre post marker ps : Str, marker = '#' :: ps →
        subMultiline (hdrLine marker pre post) (midStage s) = midStage s := hid s
    simp only [midStage] at hu
    simp only [hu (lc ("\\textbf\x7b")) (lc ("\x7d")) (lc ("####")) (lc ("###")) rfl,
      hu (lc ("\\subsection\x7b")) (lc ("\x7d")) (lc ("###")) (lc ("##")) rfl,
      hu (lc ("\\section\x7b")) (lc ("\x7d")) (lc ("##")) (lc ("#")) rfl,
      hu (lc ("\\section\x7b")) (lc ("\x7d")) (lc ("#")) ([]) rfl]
    rw [midStage]

/-- Witness for `header_rescan_dead`. -/
theorem header_rescan_dead_witness :
    subMultiline (hdrLine (lc ("###")) (lc ("\\subsection\x7b")) (lc ("\x7d")))
      (midStage (lc ("### Foo"))) = midStage (lc ("### Foo")) :=
  header_rescan_dead.1 (lc ("### Foo")) (lc ("\\subsection\x7b")) (lc ("\x7d"))
    (lc ("###")) (lc ("##")) rfl

/-- C2 counterexample: input `### Foo` yields the escaped literal
`\#\#\# Foo`, not a subsection command. -/
theorem header_rescan_counterexample :
    markdown_to_latex (lc ("### Foo")) = some (lc ("\\#\\#\\# Foo")) ∧
    countTok (lc ("\\subsection")) (lc ("\\#\\#\\# Foo")) = 0 := by
  exact ⟨by decide, by decide⟩

inductive MdEvent where
  | sec (title : Str)
  | frame (openIdx : Nat) (title : Str) (body : List Str)
deriving DecidableEq

structure WalkSt where
  inFrame : Bool
  title : Str
  openIdx : Nat
  content : List Str
  events : List MdEvent

def closeEvts (st : WalkSt) : List MdEvent :=
  if st.inFrame then st.events ++ [MdEvent.frame st.openIdx st.title st.content]
  else st.events

def walkStep (st : WalkSt) (p : Nat × Str) : WalkSt :=
  let ls := pyStrip p.2
  if (lc ("## ")).isPrefixOf ls then
    { inFrame := false, title := [], openIdx := st.openIdx, content := []
      events := closeEvts st ++ [MdEvent.sec (hdrText ls)] }
  else if (lc ("### ")).isPrefixOf ls then
    { inFrame := true, title := hdrText ls, openIdx := p.1, content := []
      events := closeEvts st }
  else if (lc ("# ")).isPrefixOf ls then
    { inFrame := false, title := [], openIdx := st.openIdx, content := []
      events := closeEvts st ++ [MdEvent.sec (hdrText ls)] }
  else if (lc ("---")).isPrefixOf ls then
    if st.inFrame && st.content ≠ [] then
      { inFrame := false, title := [], openIdx := st.openIdx, content := []
        events := st.events ++ [MdEvent.frame st.openIdx st.title st.content] }
    else st
  else
    if !st.inFrame && ls ≠ [] then
      { inFrame := true, title := [], openIdx := p.1, content := [p.2], events := st.events }
    else if st.inFrame then { st with content := st.content ++ [p.2] }
    else st

def walkEvents (lines : List Str) : List MdEvent :=
  closeEvts ((List.enum lines).foldl walkStep ⟨false, [], 0, [], []⟩)

def renderEvent : MdEvent → Str
  | MdEvent.sec t => sectionLatex t
  | MdEvent.frame _ t body => convert_markdown_to_frame t (joinNl body)

def renderEvents (evs : List MdEvent) : Str := (evs.map renderEvent).flatten

def frameIdxs (evs : List MdEvent) : List Nat :=
  evs.filterMap (fun e =>
    match e with
    | MdEvent.sec _ => none
    | MdEvent.frame i _ _ => some i)

def countIdx (i : Nat) (st : WalkSt) : Nat :=
  (frameIdxs st.events).count i + (if st.inFrame = true ∧ st.openIdx = i then 1 else 0)

def WalkRel (d : FrameSt) (e : WalkSt) : Prop :=
  d.inFrame = e.inFrame ∧ d.title = e.title ∧ d.content = e.content ∧
    d.acc = renderEvents e.events ∧ (e.inFrame = false → e.content = [])

def WalkInv (e : WalkSt) (n : Nat) : Prop :=
  (∀ i ∈ frameIdxs e.events, i < n) ∧ List.Pairwise (· < ·) (frameIdxs e.events) ∧
    (e.inFrame = true → e.openIdx < n ∧ ∀ i ∈ frameIdxs e.events, i < e.openIdx)

def isH3 (ls : Str) : Bool := (lc ("### ")).isPrefixOf ls

theorem renderEvents_append (a b : List MdEvent) :
    renderEvents (a ++ b) = renderEvents a ++ renderEvents b := by
  simp [renderEvents]

theorem render_frame_nil (i : Nat) (t : Str) :
    renderEvent (MdEvent.frame i t []) = [] := rfl

theorem renderEvents_single (e : MdEvent) : renderEvents [e] = renderEvent e := by
  simp [renderEvents]

theorem renderEvents_closeEvts (e : WalkSt) (hinv : e.inFrame = false → e.content = []) :
    renderEvents (closeEvts e) =
      renderEvents e.events ++
        (if e.inFrame && e.content ≠ [] then
          convert_markdown_to_frame e.title (joinNl e.content) else []) := by
  rw [closeEvts]
  by_cases hef : e.inFrame
  · rw [if_pos hef, renderEvents_append, renderEvents_single]
    by_cases hec : e.content = []
    · rw [hec, render_frame_nil]
      simp [hef, hec]
    · simp [hef, hec, renderEvent]
  · have hef' : e.inFrame = false := by simpa using hef
    rw [if_neg hef, hinv hef']
    simp [hef']


theorem renderEvents_cons (e : MdEvent) (r : List MdEvent) :
    renderEvents (e :: r) = renderEvent e ++ renderEvents r := by
  simp [renderEvents]

theorem renderEvents_nil : renderEvents [] = [] := rfl

theorem convert_frame_nil (t : Str) : convert_markdown_to_frame t (joinNl []) = [] := rfl

theorem walkStep_sim (d : FrameSt) (e : WalkSt) (n : Nat) (l : Str) (hr : WalkRel d e) :
    WalkRel (frameStep d l) (walkStep e (n, l)) := by
  obtain ⟨df, dt, dc, da⟩ := d
  obtain ⟨ef, et, eo, ec, ee⟩ := e
  obtain ⟨hf, ht, hc, ha, hinv⟩ := hr
  simp only at hf ht hc ha hinv
  subst hf ht hc ha
  by_cases h2 : (lc ("## ")).isPrefixOf (pyStrip l) = true
  · by_cases hef : df = true
    · by_cases hec : dc = []
      · simp [WalkRel, frameStep, walkStep, h2, hef, hec, closeEvts,
          renderEvents_append, renderEvents_single, renderEvents_cons, renderEvents_nil, convert_frame_nil, render_frame_nil, renderEvent,
          List.append_assoc]
      · simp [WalkRel, frameStep, walkStep, h2, hef, hec, closeEvts,
          renderEvents_append, renderEvents_single, renderEvents_cons, renderEvents_nil, convert_frame_nil, renderEvent, List.append_assoc]
    · have hec : dc = [] := hinv (by simpa using hef)
      simp [WalkRel, frameStep, walkStep, h2, hef, hec, closeEvts,
        renderEvents_append, renderEvents_single, renderEvents_cons, renderEvents_nil, convert_frame_nil, renderEvent, List.append_assoc]
  · by_cases h3 : (lc ("### ")).isPrefixOf (pyStrip l) = true
    · by_cases hef : df = true
      · by_cases hec : dc = []
        · simp [WalkRel, frameStep, walkStep, h2, h3, hef, hec, closeEvts,
            renderEvents_append, renderEvents_single, renderEvents_cons, renderEvents_nil, convert_frame_nil, render_frame_nil, renderEvent,
            List.append_assoc]
        · simp [WalkRel, frameStep, walkStep, h2, h3, hef, hec, closeEvts,
            renderEvents_append, renderEvents_single, renderEvents_cons, renderEvents_nil, convert_frame_nil, renderEvent, List.append_assoc]
      · have hec : dc = [] := hinv (by simpa using hef)
        simp [WalkRel, frameStep, walkStep, h2, h3, hef, hec, closeEvts,
          renderEvents_append, renderEvents_single, renderEvents_cons, renderEvents_nil, convert_frame_nil, renderEvent, List.append_assoc]
    · by_cases h1 : (lc ("# ")).isPrefixOf (pyStrip l) = true
      · by_cases hef : df = true
        · by_cases hec : dc = []
          · simp [WalkRel, frameStep, walkStep, h2, h3, h1, hef, hec, closeEvts,
              renderEvents_append, renderEvents_single, renderEvents_cons, renderEvents_nil, convert_frame_nil, render_frame_nil, renderEvent,
              List.append_assoc]
          · simp [WalkRel, frameStep, walkStep, h2, h3, h1, hef, hec, closeEvts,
              renderEvents_append, renderEvents_single, renderEvents_cons, renderEvents_nil, convert_frame_nil, renderEvent, List.append_assoc]
        · have hec : dc = [] := hinv (by simpa using hef)
          simp [WalkRel, frameStep, walkStep, h2, h3, h1, hef, hec, closeEvts,
            renderEvents_append, renderEvents_single, renderEvents_cons, renderEvents_nil, convert_frame_nil, renderEvent, List.append_assoc]
      · by_cases hd : (lc ("---")).isPrefixOf (pyStrip l) = true
        · by_cases hef : df = true
          · by_cases hec : dc = []
            · simp [WalkRel, frameStep, walkStep, h2, h3, h1, hd, hef, hec, hinv,
                renderEvents_append, renderEvents_single, renderEvents_cons, renderEvents_nil, convert_frame_nil, renderEvent]
            · simp [WalkRel, frameStep, walkStep, h2, h3, h1, hd, hef, hec,
                renderEvents_append, renderEvents_single, renderEvents_cons, renderEvents_nil, convert_frame_nil, renderEvent, List.append_assoc]
          · have hec : dc = [] := hinv (by simpa using hef)
            simp [WalkRel, frameStep, walkStep, h2, h3, h1, hd, hef, hec, hinv,
              renderEvents_append, renderEvents_single, renderEvents_cons, renderEvents_nil, convert_frame_nil, renderEvent]
        · have e1 : (lc ("## ")).isPrefixOf ([] : Str) = false := by decide
          have e2 : (lc ("### ")).isPrefixOf ([] : Str) = false := by decide
          have e3 : (lc ("# ")).isPrefixOf ([] : Str) = false := by decide
          have e4 : (lc ("---")).isPrefixOf ([] : Str) = false := by decide
          by_cases hb : pyStrip l = []
          · by_cases hef : df = true
            · simp [WalkRel, frameStep, walkStep, h2, h3, h1, hd, hb, hef, hinv, e1, e2, e3, e4,
                renderEvents_append, renderEvents_single, renderEvents_cons, renderEvents_nil, convert_frame_nil, renderEvent]
            · have hec : dc = [] := hinv (by simpa using hef)
              simp [WalkRel, frameStep, walkStep, h2, h3, h1, hd, hb, hef, hec, hinv, e1, e2, e3, e4,
                renderEvents_append, renderEvents_single, renderEvents_cons, renderEvents_nil, convert_frame_nil, renderEvent]
          · by_cases hef : df = true
            · simp [WalkRel, frameStep, walkStep, h2, h3, h1, hd, hb, hef, hinv,
                renderEvents_append, renderEvents_single, renderEvents_cons, renderEvents_nil, convert_frame_nil, renderEvent]
            · have hec : dc = [] := hinv (by simpa using hef)
              simp [WalkRel, frameStep, walkStep, h2, h3, h1, hd, hb, hef, hec, hinv,
                renderEvents_append, renderEvents_single, renderEvents_cons, renderEvents_nil, convert_frame_nil, renderEvent]

theorem frameIdxs_append (a b : List MdEvent) :
    frameIdxs (a ++ b) = frameIdxs a ++ frameIdxs b := by
  simp [frameIdxs]

theorem frameIdxs_closeEvts (e : WalkSt) :
    frameIdxs (closeEvts e) =
      frameIdxs e.events ++ (if e.inFrame = true then [e.openIdx] else []) := by
  rw [closeEvts]
  by_cases hef : e.inFrame = true
  · rw [if_pos hef, if_pos hef, frameIdxs_append]
    rfl
  · rw [if_neg hef, if_neg hef, List.append_nil]

theorem h2_not_h3 (ls : Str) (h : (lc ("## ")).isPrefixOf ls = true) : isH3 ls = false := by
  match ls with
  | [] => simp [lc, List.isPrefixOf] at h
  | [c1] => simp [lc, List.isPrefixOf] at h
  | [c1, c2] => simp [lc, List.isPrefixOf] at h
  | c1 :: c2 :: c3 :: r =>
    simp [lc, List.isPrefixOf, isH3] at h ⊢
    rcases h with ⟨rfl, rfl, rfl⟩
    simp

theorem h1_not_h3 (ls : Str) (h : (lc ("# ")).isPrefixOf ls = true) : isH3 ls = false := by
  match ls with
  | [] => simp [lc, List.isPrefixOf] at h
  | [c1] => simp [lc, List.isPrefixOf] at h
  | c1 :: c2 :: r =>
    simp [lc, List.isPrefixOf, isH3] at h ⊢
    rcases h with ⟨rfl, rfl⟩
    simp

theorem count_frameIdxs_lt (evs : List Nat) (n : Nat) (h : ∀ i ∈ evs, i < n) :
    evs.count n = 0 := by
  rw [List.count_eq_zero]
  intro hm
  exact absurd (h n hm) (Nat.lt_irrefl n)


theorem walkStep_inv (e : WalkSt) (n : Nat) (l : Str) (hi : WalkInv e n) :
    WalkInv (walkStep e (n, l)) (n + 1) ∧
    (∀ i, i < n → countIdx i (walkStep e (n, l)) = countIdx i e) ∧
    (isH3 (pyStrip l) = true → countIdx n (walkStep e (n, l)) = 1) := by
  obtain ⟨hb1, hb2, hb3⟩ := hi
  have hclose_bound : ∀ i ∈ frameIdxs (closeEvts e), i < n := by
    intro i him
    rw [frameIdxs_closeEvts] at him
    rcases List.mem_append.mp him with him | him
    · exact hb1 i him
    · by_cases hef : e.inFrame = true
      · rw [if_pos hef] at him
        rcases List.mem_cons.mp him with rfl | him
        · exact (hb3 hef).1
        · simp at him
      · rw [if_neg hef] at him
        simp at him
  have hclose_sorted : List.Pairwise (· < ·) (frameIdxs (closeEvts e)) := by
    rw [frameIdxs_closeEvts]
    by_cases hef : e.inFrame = true
    · rw [if_pos hef]
      refine List.pairwise_append.mpr ⟨hb2, List.pairwise_singleton _ _, ?_⟩
      intro a ha b hbm
      rcases List.mem_cons.mp hbm with rfl | hbm
      · exact (hb3 hef).2 a ha
      · simp at hbm
    · rw [if_neg hef, List.append_nil]
      exact hb2
  have hclose_count : ∀ i, (frameIdxs (closeEvts e)).count i =
      (frameIdxs e.events).count i +
        (if e.inFrame = true ∧ e.openIdx = i then 1 else 0) := by
    intro i
    rw [frameIdxs_closeEvts, List.count_append]
    congr 1
    by_cases hef : e.inFrame = true
    · rw [if_pos hef]
      by_cases ho : e.openIdx = i
      · rw [if_pos ⟨hef, ho⟩, ho]
        simp
      · rw [if_neg (by intro hx; exact ho hx.2)]
        simp [List.count_cons, ho]
    · rw [if_neg hef, if_neg (by intro hx; exact hef hx.1)]
      rfl
  by_cases h2 : (lc ("## ")).isPrefixOf (pyStrip l) = true
  · have hstep : walkStep e (n, l) =
        { inFrame := false, title := [], openIdx := e.openIdx, content := []
          events := closeEvts e ++ [MdEvent.sec (hdrText (pyStrip l))] } := by
      simp [walkStep, h2]
    rw [hstep]
    refine ⟨⟨?_, ?_, ?_⟩, ?_, ?_⟩
    · intro i him
      simp only [frameIdxs_append] at him
      rw [List.mem_append] at him
      rcases him with him | him
      · exact Nat.lt_succ_of_lt (hclose_bound i him)
      · simp [frameIdxs] at him
    · simp only [frameIdxs_append]
      have : frameIdxs [MdEvent.sec (hdrText (pyStrip l))] = [] := rfl
      rw [this, List.append_nil]
      exact hclose_sorted
    · intro hcc
      simp at hcc
    · intro i _
      rw [countIdx, countIdx]
      simp only [frameIdxs_append]
      have : frameIdxs [MdEvent.sec (hdrText (pyStrip l))] = [] := rfl
      rw [this, List.append_nil, hclose_count i]
      simp
    · intro hh3
      rw [h2_not_h3 _ h2] at hh3
      exact Bool.noConfusion hh3
  · by_cases h3 : (lc ("### ")).isPrefixOf (pyStrip l) = true
    · have hstep : walkStep e (n, l) =
          { inFrame := true, title := hdrText (pyStrip l), openIdx := n, content := []
            events := closeEvts e } := by
        simp [walkStep, h2, h3]
      rw [hstep]
      refine ⟨⟨?_, ?_, ?_⟩, ?_, ?_⟩
      · exact fun i him => Nat.lt_succ_of_lt (hclose_bound i him)
      · exact hclose_sorted
      · exact fun _ => ⟨Nat.lt_succ_self n, hclose_bound⟩
      · intro i hilt
        rw [countIdx, countIdx, hclose_count i]
        have : ¬(true = true ∧ n = i) := by
          intro hx
          exact absurd (hx.2 ▸ hilt) (Nat.lt_irrefl n)
        rw [if_neg this]
        simp
      · intro _
        rw [countIdx]
        simp only
        rw [count_frameIdxs_lt _ n hclose_bound, if_pos (by exact ⟨trivial, trivial⟩)]
    · by_cases h1 : (lc ("# ")).isPrefixOf (pyStrip l) = true
      · have hstep : walkStep e (n, l) =
            { inFrame := false, title := [], openIdx := e.openIdx, content := []
              events := closeEvts e ++ [MdEvent.sec (hdrText (pyStrip l))] } := by
          simp [walkStep, h2, h3, h1]
        rw [hstep]
        refine ⟨⟨?_, ?_, ?_⟩, ?_, ?_⟩
        · intro i him
          simp only [frameIdxs_append] at him
          rw [List.mem_append] at him
          rcases him with him | him
          · exact Nat.lt_succ_of_lt (hclose_bound i him)
          · simp [frameIdxs] at him
        · simp only [frameIdxs_append]
          have : frameIdxs [MdEvent.sec (hdrText (pyStrip l))] = [] := rfl
          rw [this, List.append_nil]
          exact hclose_sorted
        · intro hcc
          simp at hcc
        · intro i _
          rw [countIdx, countIdx]
          simp only [frameIdxs_append]
          have : frameIdxs [MdEvent.sec (hdrText (pyStrip l))] = [] := rfl
          rw [this, List.append_nil, hclose_count i]
          simp
        · intro hh3
          rw [h1_not_h3 _ h1] at hh3
          exact Bool.noConfusion hh3
      · by_cases hd : (lc ("---")).isPrefixOf (pyStrip l) = true
        · by_cases hg : e.inFrame = true ∧ e.content ≠ []
          · have hstep : walkStep e (n, l) =
                { inFrame := false, title := [], openIdx := e.openIdx, content := []
                  events := e.events ++ [MdEvent.frame e.openIdx e.title e.content] } := by
              simp [walkStep, h2, h3, h1, hd, hg.1, hg.2]
            rw [hstep]
            have hfr : frameIdxs (e.events ++ [MdEvent.frame e.openIdx e.title e.content]) =
                frameIdxs e.events ++ [e.openIdx] := by
              rw [frameIdxs_append]
              rfl
            refine ⟨⟨?_, ?_, ?_⟩, ?_, ?_⟩
            · intro i him
              simp only [hfr] at him
              rcases List.mem_append.mp him with him | him
              · exact Nat.lt_succ_of_lt (hb1 i him)
              · rcases List.mem_cons.mp him with rfl | him
                · exact Nat.lt_succ_of_lt (hb3 hg.1).1
                · simp at him
            · simp only [hfr]
              refine List.pairwise_append.mpr ⟨hb2, List.pairwise_singleton _ _, ?_⟩
              intro a ha b hbm
              rcases List.mem_cons.mp hbm with rfl | hbm
              · exact (hb3 hg.1).2 a ha
              · simp at hbm
            · intro hcc
              simp at hcc
            · intro i _
              rw [countIdx, countIdx]
              simp only [hfr]
              rw [List.count_append]
              have hsw : ∀ j : Nat, List.count j [e.openIdx] =
                  if e.inFrame = true ∧ e.openIdx = j then 1 else 0 := by
                intro j
                by_cases ho : e.openIdx = j
                · rw [if_pos ⟨hg.1, ho⟩, ho]
                  simp
                · rw [if_neg (by intro hx; exact ho hx.2)]
                  simp [List.count_cons, ho]
              rw [hsw i]
              simp
            · intro hh3
              exact absurd hh3 h3
          · have hstep : walkStep e (n, l) = e := by
              have hgc : (e.inFrame && decide (e.content ≠ [])) = true → False := by
                intro hx
                rw [Bool.and_eq_true] at hx
                exact hg ⟨hx.1, of_decide_eq_true hx.2⟩
              have hgc2 : (e.inFrame && decide (e.content ≠ [])) = false := by
                cases hh : (e.inFrame && decide (e.content ≠ []))
                · rfl
                · exact (hgc hh).elim
              simp [walkStep, h2, h3, h1, hd, hgc2]
              intro hx1 hx2
              exact absurd ⟨hx1, hx2⟩ hg
            rw [hstep]
            refine ⟨⟨fun i him => Nat.lt_succ_of_lt (hb1 i him), hb2,
              fun hcc => ⟨Nat.lt_succ_of_lt (hb3 hcc).1, (hb3 hcc).2⟩⟩,
              fun i _ => rfl, fun hh3 => absurd hh3 h3⟩
        · by_cases hef : e.inFrame = true
          · have hstep : walkStep e (n, l) = { e with content := e.content ++ [l] } := by
              simp [walkStep, h2, h3, h1, hd, hef]
            rw [hstep]
            refine ⟨⟨fun i him => Nat.lt_succ_of_lt (hb1 i him), hb2,
              fun hcc => ⟨Nat.lt_succ_of_lt (hb3 hcc).1, (hb3 hcc).2⟩⟩,
              fun i _ => rfl, fun hh3 => absurd hh3 h3⟩
          · have e1 : (lc ("## ")).isPrefixOf ([] : Str) = false := by decide
            have e2 : (lc ("### ")).isPrefixOf ([] : Str) = false := by decide
            have e3 : (lc ("# ")).isPrefixOf ([] : Str) = false := by decide
            have e4 : (lc ("---")).isPrefixOf ([] : Str) = false := by decide
            by_cases hls : pyStrip l = []
            · have hstep : walkStep e (n, l) = e := by
                simp [walkStep, h2, h3, h1, hd, hef, hls, e1, e2, e3, e4]
              rw [hstep]
              refine ⟨⟨fun i him => Nat.lt_succ_of_lt (hb1 i him), hb2,
                fun hcc => ⟨Nat.lt_succ_of_lt (hb3 hcc).1, (hb3 hcc).2⟩⟩,
                fun i _ => rfl, fun hh3 => absurd hh3 h3⟩
            · have hstep : walkStep e (n, l) =
                  { inFrame := true, title := [], openIdx := n, content := [l]
                    events := e.events } := by
                simp [walkStep, h2, h3, h1, hd, hef, hls]
              rw [hstep]
              refine ⟨⟨fun i him => Nat.lt_succ_of_lt (hb1 i him), hb2,
                fun _ => ⟨Nat.lt_succ_self n, hb1⟩⟩, ?_, fun hh3 => absurd hh3 h3⟩
              intro i hilt
              rw [countIdx, countIdx]
              simp only
              rw [if_neg (by intro hx; exact absurd (hx.2 ▸ hilt) (Nat.lt_irrefl n)),
                if_neg (by intro hx; exact hef hx.1)]

theorem closeEvts_count (e : WalkSt) (i : Nat) :
    (frameIdxs (closeEvts e)).count i = countIdx i e := by
  rw [frameIdxs_closeEvts, List.count_append, countIdx]
  congr 1
  by_cases hef : e.inFrame = true
  · rw [if_pos hef]
    by_cases ho : e.openIdx = i
    · rw [if_pos ⟨hef, ho⟩, ho]
      simp
    · rw [if_neg (by intro hx; exact ho hx.2)]
      simp [List.count_cons, ho]
  · rw [if_neg hef, if_neg (by intro hx; exact hef hx.1)]
    rfl

theorem closeEvts_sorted (e : WalkSt) (n : Nat) (hi : WalkInv e n) :
    List.Pairwise (· < ·) (frameIdxs (closeEvts e)) := by
  obtain ⟨hb1, hb2, hb3⟩ := hi
  rw [frameIdxs_closeEvts]
  by_cases hef : e.inFrame = true
  · rw [if_pos hef]
    refine List.pairwise_append.mpr ⟨hb2, List.pairwise_singleton _ _, ?_⟩
    intro a ha b hbm
    rcases List.mem_cons.mp hbm with rfl | hbm
    · exact (hb3 hef).2 a ha
    · simp at hbm
  · rw [if_neg hef, List.append_nil]
    exact hb2

theorem walkFold (lines : List Str) : ∀ (n : Nat) (d : FrameSt) (e : WalkSt),
    WalkRel d e → WalkInv e n →
    WalkRel (lines.foldl frameStep d) ((List.enumFrom n lines).foldl walkStep e) ∧
    WalkInv ((List.enumFrom n lines).foldl walkStep e) (n + lines.length) ∧
    (∀ i, i < n →
      countIdx i ((List.enumFrom n lines).foldl walkStep e) = countIdx i e) ∧
    (∀ p ∈ List.enumFrom n lines, isH3 (pyStrip p.2) = true →
      countIdx p.1 ((List.enumFrom n lines).foldl walkStep e) = 1) := by
  induction lines with
  | nil =>
    intro n d e hr hi
    exact ⟨hr, by simpa using hi, fun i _ => rfl, by simp⟩
  | cons l rest ih =>
    intro n d e hr hi
    have hr1 := walkStep_sim d e n l hr
    obtain ⟨hi1, hlt1, hh31⟩ := walkStep_inv e n l hi
    obtain ⟨R2, I2, Clt2, Ch32⟩ := ih (n + 1) (frameStep d l) (walkStep e (n, l)) hr1 hi1
    have henum : List.enumFrom n (l :: rest) = (n, l) :: List.enumFrom (n + 1) rest := rfl
    rw [henum]
    refine ⟨R2, ?_, ?_, ?_⟩
    · rw [List.foldl_cons]
      have harith : n + (l :: rest).length = n + 1 + rest.length := by
        simp [List.length_cons]
        omega
      rw [harith]
      exact I2
    · intro i hilt
      rw [List.foldl_cons, Clt2 i (Nat.lt_succ_of_lt hilt), hlt1 i hilt]
    · intro p hp hph3
      rw [List.foldl_cons]
      rcases List.mem_cons.mp hp with rfl | hp
      · rw [Clt2 n (Nat.lt_succ_self n), hh31 hph3]
      · exact Ch32 p hp hph3


/-- C6: for every markdown cell fed to the assembler, the emitted LaTeX equals
the concatenation of one render per event of an instrumented walk over the
cell lines; the frame-opening line indices of that walk are strictly
increasing (so no frame is ever duplicated), and every frame opened by a
header line of the third level (including one followed immediately by another
header, a separator, or end of cell) is closed into exactly one event (so no
frame is dropped) -- a frame whose converted body is empty renders to the
empty string, the documented elision. -/
theorem markdown_frames_exact (content : Str) :
    mdCellLatex content = renderEvents (walkEvents (splitNl content)) ∧
    List.Pairwise (· < ·) (frameIdxs (walkEvents (splitNl content))) ∧
    (∀ p ∈ (splitNl content).enum, isH3 (pyStrip p.2) = true →
      (frameIdxs (walkEvents (splitNl content))).count p.1 = 1) := by
  have hr0 : WalkRel ⟨false, [], [], []⟩ ⟨false, [], 0, [], []⟩ :=
    ⟨rfl, rfl, rfl, rfl, fun _ => rfl⟩
  have hi0 : WalkInv ⟨false, [], 0, [], []⟩ 0 := by
    refine ⟨by simp [frameIdxs], by simp [frameIdxs], fun h => ?_⟩
    simp at h
  obtain ⟨R2, I2, _, Ch3⟩ :=
    walkFold (splitNl content) 0 ⟨false, [], [], []⟩ ⟨false, [], 0, [], []⟩ hr0 hi0
  have henum : (splitNl content).enum = List.enumFrom 0 (splitNl content) := rfl
  obtain ⟨hf, ht, hc, ha, hinv⟩ := R2
  refine ⟨?_, ?_, ?_⟩
  · have hmd : mdCellLatex content =
        (if (((splitNl content).foldl frameStep ⟨false, [], [], []⟩).inFrame &&
            decide (((splitNl content).foldl frameStep ⟨false, [], [], []⟩).content ≠ [])) = true
         then
          ((splitNl content).foldl frameStep ⟨false, [], [], []⟩).acc ++
            convert_markdown_to_frame
              ((splitNl content).foldl frameStep ⟨false, [], [], []⟩).title
              (joinNl ((splitNl content).foldl frameStep ⟨false, [], [], []⟩).content)
         else ((splitNl content).foldl frameStep ⟨false, [], [], []⟩).acc) := rfl
    rw [hmd, walkEvents, henum, renderEvents_closeEvts _ hinv, hf, hc, ht, ha]
    by_cases hg : (((List.enumFrom 0 (splitNl content)).foldl walkStep
        ⟨false, [], 0, [], []⟩).inFrame &&
        decide (((List.enumFrom 0 (splitNl content)).foldl walkStep
          ⟨false, [], 0, [], []⟩).content ≠ [])) = true
    · rw [if_pos hg, if_pos hg]
    · rw [if_neg hg, if_neg hg, List.append_nil]
  · rw [walkEvents, henum]
    exact closeEvts_sorted _ _ I2
  · intro p hp hph3
    rw [walkEvents, henum, closeEvts_count]
    exact Ch3 p (henum ▸ hp) hph3

theorem markdown_frames_exact_witness :
    (0, lc ("### A")) ∈ (splitNl (lc ("### A\nbody"))).enum ∧
    isH3 (pyStrip (lc ("### A"))) = true ∧
    (frameIdxs (walkEvents (splitNl (lc ("### A\nbody"))))).count 0 = 1 :=
  ⟨by decide, by decide,
    (markdown_frames_exact (lc ("### A\nbody"))).2.2 (0, lc ("### A"))
      (by decide) (by decide)⟩
